import Mathlib

/-!
Verification of the table-to-record normalization pipeline of
`scripts/generate.py` (AWS EC2 / RDS / ElastiCache instance-catalog scraper).

Python strings are modelled as `List Char` (the scraper first strips every
non-ASCII character, so code-point lists are a faithful byte-level model).
Python `dict`s are modelled as insertion-ordered association lists, Python
`set`s as lists consumed only through emptiness tests and sorted‑deduplication,
and a Python function that can raise is modelled with `Option` (`none` = an
exception escapes).  All definitions are transcribed from the source; the few
definitions that instead follow the specification's words (for comparison
against the code) say so in their doc comment.
-/

namespace Generate

/-! ## Character and string primitives -/

/-- Whitespace characters matched by Python's `\s` on ASCII text. -/
def isPySpace (c : Char) : Bool :=
  c = ' ' || c = '\t' || c = '\n' || c = '\x0d' || c = '\x0b' || c = '\x0c'

/-- Python `str.lower` on one ASCII character. -/
def pyCharLower (c : Char) : Char :=
  if 'A' ≤ c ∧ c ≤ 'Z' then Char.ofNat (c.toNat + 32) else c

/-- Python `str.upper` on one ASCII character. -/
def pyCharUpper (c : Char) : Char :=
  if 'a' ≤ c ∧ c ≤ 'z' then Char.ofNat (c.toNat - 32) else c

/-- Python `str.lower` over a whole string. -/
def pyLower (s : List Char) : List Char := s.map pyCharLower

/-- Python `str.strip()` (strip whitespace from both ends). -/
def pyStrip (s : List Char) : List Char :=
  ((s.dropWhile isPySpace).reverse.dropWhile isPySpace).reverse

/-- Python `str.split(sep)` for a one-character separator: always returns at
least one (possibly empty) segment. -/
def splitOnChar (sep : Char) : List Char → List (List Char)
  | [] => [[]]
  | c :: cs =>
      if c = sep then [] :: splitOnChar sep cs
      else
        match splitOnChar sep cs with
        | [] => [[c]]
        | h :: t => (c :: h) :: t

/-- Numeric value of a list of decimal digit characters. -/
def natOfDigits (cs : List Char) : ℕ :=
  cs.foldl (fun a c => a * 10 + (c.toNat - 48)) 0

/-- Replace every maximal run of characters satisfying `p` by the single
character `r` (the shape of Python's `re.sub(r"[class]+", r, s)`). -/
def collapseRunsWith (p : Char → Bool) (r : Char) : List Char → List Char
  | [] => []
  | c :: cs =>
      if p c then
        match cs with
        | c' :: _ => if p c' then collapseRunsWith p r cs else r :: collapseRunsWith p r cs
        | [] => [r]
      else c :: collapseRunsWith p r cs

/-- Case-insensitive literal match of `pat` at the front of `t`; on success
returns the remainder of `t` (the way a literal inside an `re.I` pattern is
consumed). -/
def ciPrefixDrop : List Char → List Char → Option (List Char)
  | [], t => some t
  | _ :: _, [] => none
  | p :: ps, c :: cs => if pyCharLower c = pyCharLower p then ciPrefixDrop ps cs else none

/-- Word characters of the regex class `\w` on ASCII text. -/
def isWordChar (c : Char) : Bool := c.isAlpha || c.isDigit || c = '_'

/-- Python `pat in s` substring containment. -/
def isSubstringOf (pat : List Char) : List Char → Bool
  | [] => pat.isEmpty
  | c :: cs => pat.isPrefixOf (c :: cs) || isSubstringOf pat cs

/-! ## Python numeric literal parsing

`tryParseInt` models `int(s)` and `tryParseFloat` models `float(s)` on the
ASCII strings this pipeline feeds them, with floats represented as exact
rationals (every concrete literal the claims mention is exactly
representable).  Unmodelled fringe forms (`_` digit separators, `inf`/`nan`)
do not occur in cleaned catalog cells. -/

/-- Python `int(s)`: optional surrounding whitespace, optional sign, digits. -/
def tryParseInt (s : List Char) : Option ℤ :=
  let t := pyStrip s
  let signed : ℤ × List Char :=
    match t with
    | '+' :: r => (1, r)
    | '-' :: r => (-1, r)
    | _ => (1, t)
  if signed.2 ≠ [] ∧ signed.2.all Char.isDigit then
    some (signed.1 * (natOfDigits signed.2 : ℤ))
  else none

/-- Unsigned decimal mantissa of a float literal: digits, optionally with one
decimal point, at least one digit overall (`"1."`, `".5"` are legal, `"."` is
not). -/
def parseMantissa (cs : List Char) : Option ℚ :=
  match splitOnChar '.' cs with
  | [ip] =>
      if ip ≠ [] ∧ ip.all Char.isDigit then some ((natOfDigits ip : ℚ)) else none
  | [ip, fp] =>
      if (ip.all Char.isDigit ∧ fp.all Char.isDigit) ∧ (ip ≠ [] ∨ fp ≠ []) then
        some ((natOfDigits ip : ℚ) + (natOfDigits fp : ℚ) / (10 : ℚ) ^ fp.length)
      else none
  | _ => none

/-- Split a float literal at its first exponent marker `e`/`E`, if any. -/
def splitFirstE : List Char → List Char × Option (List Char)
  | [] => ([], none)
  | c :: cs =>
      if c = 'e' ∨ c = 'E' then ([], some cs)
      else
        let r := splitFirstE cs
        (c :: r.1, r.2)

/-- Python `float(s)` as an exact rational (see section comment). -/
def tryParseFloat (s : List Char) : Option ℚ :=
  let t := pyStrip s
  let signed : ℚ × List Char :=
    match t with
    | '+' :: r => (1, r)
    | '-' :: r => (-1, r)
    | _ => (1, t)
  let parts := splitFirstE signed.2
  match parts.2 with
  | none => (parseMantissa parts.1).map (fun m => signed.1 * m)
  | some ex =>
      let esigned : ℤ × List Char :=
        match ex with
        | '+' :: r => (1, r)
        | '-' :: r => (-1, r)
        | _ => (1, ex)
      if esigned.2 ≠ [] ∧ esigned.2.all Char.isDigit then
        (parseMantissa parts.1).map
          (fun m => signed.1 * m * (10 : ℚ) ^ (esigned.1 * (natOfDigits esigned.2 : ℤ)))
      else none

/-! ## Text Normalizer (`clean_text`, `clean_instance_type`, `clean_hypervisor`,
`clean_operating_system`, `to_snake_case`) -/

/-- Source `clean_text`: drop non-ASCII characters
(`text.encode("ascii", "ignore")`), collapse whitespace runs to single spaces
(`re.sub(r"\s+", " ", ...)`) and strip the ends. -/
def clean_text (s : List Char) : List Char :=
  pyStrip (collapseRunsWith isPySpace ' ' (s.filter (fun c => c.toNat ≤ 127)))

/-- True when `t` is a non-empty all-digit list: the `\d+$` tail that every
alternative of the footnote regex must be followed by. -/
def digitsTail (t : List Char) : Bool := !t.isEmpty && t.all Char.isDigit

/-- One literal-word alternative of the footnote regex
(`nano|micro|small|medium|large`) tried at a fixed position: the word, then
`\d+` running to the end of the string. -/
def wordAlt (w t : List Char) : Option (List Char) :=
  if w.isPrefixOf t && digitsTail (t.drop w.length) then some w else none

/-- The `\d*xlarge` alternative followed by `\d+$`.  The leading `\d*` is
necessarily the maximal digit run (a shorter run would leave a digit where
`x` is required). -/
def xlargeAlt (t : List Char) : Option (List Char) :=
  let r := t.takeWhile Char.isDigit
  let t1 := t.drop r.length
  if "xlarge".data.isPrefixOf t1 && digitsTail (t1.drop 6) then
    some (r ++ "xlarge".data)
  else none

/-- The `metal(?:-\d+xl)?` alternative followed by `\d+$`; the optional infix
is greedy, so the variant with `-\d+xl` is tried first. -/
def metalAlt (t : List Char) : Option (List Char) :=
  if "metal".data.isPrefixOf t then
    (match t.drop 5 with
     | '-' :: u1 =>
         if !(u1.takeWhile Char.isDigit).isEmpty &&
            "xl".data.isPrefixOf (u1.drop (u1.takeWhile Char.isDigit).length) &&
            digitsTail ((u1.drop (u1.takeWhile Char.isDigit).length).drop 2) then
           some ("metal-".data ++ u1.takeWhile Char.isDigit ++ "xl".data)
         else none
     | _ => none).orElse
      (fun _ => if digitsTail (t.drop 5) then some "metal".data else none)
  else none

/-- The full alternation
`(\d*xlarge|metal(?:-\d+xl)?|nano|micro|small|medium|large)\d+$` attempted at
one position; returns the group-1 capture on success. -/
def altMatch (t : List Char) : Option (List Char) :=
  (xlargeAlt t).orElse fun _ =>
  (metalAlt t).orElse fun _ =>
  (wordAlt "nano".data t).orElse fun _ =>
  (wordAlt "micro".data t).orElse fun _ =>
  (wordAlt "small".data t).orElse fun _ =>
  (wordAlt "medium".data t).orElse fun _ =>
  wordAlt "large".data t

/-- Leftmost position at which the footnote pattern matches; returns the text
before the match and the group-1 capture (the match always runs to the end of
the string because of the `$` anchor). -/
def findSuffixMatch : List Char → Option (List Char × List Char)
  | [] => none
  | c :: cs =>
      match altMatch (c :: cs) with
      | some g => some ([], g)
      | none => (findSuffixMatch cs).map (fun pg => (c :: pg.1, pg.2))

/-- Source `clean_instance_type`: `re.sub` of the footnote pattern with the
group-1 replacement `\1` (at most one match can exist, as it must end at the
end of the string). -/
def clean_instance_type (s : List Char) : List Char :=
  match findSuffixMatch s with
  | some pg => pg.1 ++ pg.2
  | none => s

/-- Source `clean_hypervisor`: `re.sub(r"\s*[*]+\s*$", "", s).strip()`. -/
def clean_hypervisor (s : List Char) : List Char :=
  let t := s.reverse.dropWhile isPySpace
  if t.head? = some '*' then
    pyStrip ((t.dropWhile (fun c => c = '*')).dropWhile isPySpace).reverse
  else pyStrip s

/-- Python `re.sub(r"\d+$", "", s)`: drop a trailing run of digits. -/
def removeTrailingDigits (s : List Char) : List Char :=
  (s.reverse.dropWhile Char.isDigit).reverse

/-- Python `re.sub(r"\s*\([^)]*\)\s*$", "", s)`: drop a trailing parenthesized
qualifier (whose interior contains no `)`), with surrounding whitespace.  The
last non-space character must be `)`; scanning leftwards from it, `seg` is
everything up to the previous `)` (the interior cannot cross one), and the
leftmost-match rule picks the *earliest* `(` inside that span (the first `(`
of `seg.reverse`), eating the whitespace immediately before it. -/
def removeTrailingParenQual (s : List Char) : List Char :=
  match s.reverse.dropWhile isPySpace with
  | ')' :: r2 =>
      let seg := r2.takeWhile (fun c => c ≠ ')')
      if '(' ∈ seg then
        (((seg.reverse.takeWhile (fun c => c ≠ '(')).reverse
            ++ r2.drop seg.length).dropWhile isPySpace).reverse
      else s
  | _ => s

/-- The per-element cleanup inside source `clean_operating_system`. -/
def cleanOsSingle (s : List Char) : List Char :=
  pyStrip (removeTrailingParenQual (removeTrailingDigits s))

/-! ## Value Coercer -/

/-- The loosely-typed cell values produced by `parse_basic_value` (Python
`bool | list[str] | float | int | str`). -/
inductive PyVal : Type where
  | bool (b : Bool)
  | int (n : ℤ)
  | float (q : ℚ)
  | list (l : List (List Char))
  | str (s : List Char)
deriving DecidableEq

/-- Source `clean_operating_system`: normalize a scalar or list value to a
cleaned list of strings (other value shapes give `[]`). -/
def clean_operating_system : PyVal → List (List Char)
  | .str s => [cleanOsSingle s]
  | .list l => l.map cleanOsSingle
  | _ => []

/-- Source `parse_basic_value`: empty stays a string, case-insensitive
`yes`/`no` become booleans, pipe-delimited text becomes a list of trimmed
non-empty segments, then numeric parsing (float when a `.` is present, else
int), falling back to the original string. -/
def parse_basic_value (s : List Char) : PyVal :=
  if s = [] then .str s
  else if pyLower s = "yes".data then .bool true
  else if pyLower s = "no".data then .bool false
  else if '|' ∈ s then
    .list (((splitOnChar '|' s).map pyStrip).filter (fun item => item ≠ []))
  else if '.' ∈ s then
    match tryParseFloat s with
    | some q => .float q
    | none => .str s
  else
    match tryParseInt s with
    | some n => .int n
    | none => .str s

/-- The `BandwidthSpec` dataclass (`baseline`/`burst`, either may be null). -/
structure BandwidthSpec where
  baseline : Option ℚ
  burst : Option ℚ
deriving DecidableEq

/-- Return type of `parse_bandwidth`: a structured spec or the original
descriptive string. -/
inductive BandwidthOrStr : Type where
  | spec (b : BandwidthSpec)
  | str (s : List Char)
deriving DecidableEq

/-- Source `parse_bandwidth`.  A numeric input becomes
`BandwidthSpec(float(value), None)` (Python `bool` is an `int`, so booleans
take the numeric branch); a non-string non-numeric input becomes
`BandwidthSpec(None, None)`; a string splitting as exactly two `/`-parts that
does not contain `Gigabit` and whose stripped halves both parse as floats
becomes a structured spec; every other string is returned verbatim. -/
def parse_bandwidth : PyVal → BandwidthOrStr
  | .bool b => .spec ⟨some (if b then 1 else 0), none⟩
  | .int n => .spec ⟨some (n : ℚ), none⟩
  | .float q => .spec ⟨some q, none⟩
  | .list _ => .spec ⟨none, none⟩
  | .str s =>
      if '/' ∈ s ∧ ¬ isSubstringOf "Gigabit".data s then
        match splitOnChar '/' s with
        | [a, b] =>
            match tryParseFloat (pyStrip a), tryParseFloat (pyStrip b) with
            | some x, some y => .spec ⟨some x, some y⟩
            | _, _ => .str s
        | _ => .str s
      else .str s

/-- Return type of `parse_volume_limit`: the `VolumeLimitSpec` dataclass
fields or the original free-text string. -/
inductive VolumeLimitOrStr : Type where
  | spec (limit : ℤ) (limitType : List Char)
  | str (s : List Char)
deriving DecidableEq

/-- Tail of the volume-limit pattern after the qualifier group: the literal
`limit` (case-insensitive, under `re.I`) followed by `)`; returns the text
after the closing parenthesis (which `re.match` leaves unconstrained). -/
def parenTailAfterLimit (r : List Char) : Option (List Char) :=
  match ciPrefixDrop "limit".data r with
  | some r2 =>
      match r2 with
      | ')' :: tail => some tail
      | _ => none
  | none => none

/-- First (greedy) continuation after the qualifier group `(\w+)`: the
optional infix `[- ]based` is present, followed by `\s*limit\)`.  `w` is the
maximal word run and `rest` the text after it. -/
def qualifierAltBased (w rest : List Char) : Option (List Char × List Char) :=
  match rest with
  | c :: r1 =>
      if c = '-' ∨ c = ' ' then
        match ciPrefixDrop "based".data r1 with
        | some r2 => (parenTailAfterLimit (r2.dropWhile isPySpace)).map (fun tail => (w, tail))
        | none => none
      else none
  | [] => none

/-- Second continuation: the optional infix is absent and `\s*limit\)`
matches right after the full word run. -/
def qualifierAltPlain (w rest : List Char) : Option (List Char × List Char) :=
  (parenTailAfterLimit (rest.dropWhile isPySpace)).map (fun tail => (w, tail))

/-- Third continuation (group backtracking): the word run gives its trailing
case-insensitive `limit` back to the literal, and `)` must follow the run
directly.  The shortened group must stay non-empty (`\w+`). -/
def qualifierAltGiveback (w rest : List Char) : Option (List Char × List Char) :=
  match rest with
  | ')' :: tail =>
      if 5 < w.length ∧ (pyLower w).drop (w.length - 5) = "limit".data then
        some (w.take (w.length - 5), tail)
      else none
  | _ => none

/-- The three continuations in the regex engine's preference order. -/
def qualifierAlts (w rest : List Char) : Option (List Char × List Char) :=
  (qualifierAltBased w rest).orElse fun _ =>
  (qualifierAltPlain w rest).orElse fun _ =>
  qualifierAltGiveback w rest

/-- The `(\w+)(?:[- ]based)?\s*limit\)` part of the volume-limit regex tried
after the opening parenthesis.  The group is greedy: the full word run is
tried with the optional `[- ]based` infix, then without it, and finally the
word run gives back a trailing (case-insensitive) `limit` to the literal.
Returns the captured qualifier and the text after `)`. -/
def qualifierMatch (s3 : List Char) : Option (List Char × List Char) :=
  if s3.takeWhile isWordChar = [] then none
  else qualifierAlts (s3.takeWhile isWordChar) (s3.drop (s3.takeWhile isWordChar).length)

/-- The `(\d+)\s*\(...\)` part of the volume-limit pattern attempted on the
text `s1` following the optional prefix. -/
def volumeLimitDigits (s1 : List Char) : Option (ℤ × List Char × List Char) :=
  if s1.takeWhile Char.isDigit = [] then none
  else
    match (s1.drop (s1.takeWhile Char.isDigit).length).dropWhile isPySpace with
    | '(' :: s3 =>
        (qualifierMatch s3).map
          (fun wt => ((natOfDigits (s1.takeWhile Char.isDigit) : ℤ), pyLower wt.1, wt.2))
    | _ => none

/-- The whole anchored attempt of
`re.match(r"(?:Up to\s+)?(\d+)\s*\((\w+)(?:[- ]based)?\s*limit\)", s, re.I)`:
on success returns the captured integer, the lowercased qualifier, and the
uninspected text after `)`.  The optional `Up to` prefix must be followed by
whitespace; when it is absent (or not followed by whitespace) the digits must
start the string, so no backtracking between the two start positions is
possible. -/
def volumeLimitMatch (s : List Char) : Option (ℤ × List Char × List Char) :=
  match ciPrefixDrop "up to".data s with
  | some r =>
      if r.takeWhile isPySpace ≠ [] then volumeLimitDigits (r.dropWhile isPySpace)
      else volumeLimitDigits s
  | none => volumeLimitDigits s

/-- Source `parse_volume_limit`: structured result when the anchored pattern
matches, otherwise the input string unchanged (the function never raises). -/
def parse_volume_limit (s : List Char) : VolumeLimitOrStr :=
  match volumeLimitMatch s with
  | some r => .spec r.1 r.2.1
  | none => .str s

/-- Claim-side definition, following the specification's words for C6: a
string "of this exact shape" is one the volume-limit pattern matches in full,
with nothing after the closing parenthesis. -/
def volumeLimitExactShape (s : List Char) : Bool :=
  match volumeLimitMatch s with
  | some r => r.2.2.isEmpty
  | none => false

/-! ## Header normalization (`to_snake_case`) -/

/-- Characters deleted by the first substitution of `to_snake_case`
(`re.sub(r"[().]", "", text)`). -/
def isDotParen (c : Char) : Bool := c = '(' || c = ')' || c = '.'

/-- The `[\s\-]` regex class of the third substitution. -/
def isWsOrDash (c : Char) : Bool := isPySpace c || c = '-'

/-- Python `str.strip("_")`. -/
def stripUnderscores (s : List Char) : List Char :=
  ((s.dropWhile (fun c => c = '_')).reverse.dropWhile (fun c => c = '_')).reverse

/-- Source `to_snake_case`: delete `(`/`)`/`.`, replace `/` by `_`, replace
runs of whitespace/hyphens by `_`, lowercase, collapse `_` runs, and strip
`_` from the ends. -/
def to_snake_case (s : List Char) : List Char :=
  stripUnderscores
    (collapseRunsWith (fun c => c = '_') '_'
      (pyLower
        (collapseRunsWith isWsOrDash '_'
          ((s.filter (fun c => !isDotParen c)).map (fun c => if c = '/' then '_' else c)))))

/-- Claim-side definition, following the claim C7's words verbatim: lowercase,
replace every separator — `.`/parentheses/slashes/hyphens/whitespace — with an
underscore, and collapse underscore runs. -/
def normalizeKeyClaim (s : List Char) : List Char :=
  collapseRunsWith (fun c => c = '_') '_'
    (s.map (fun c =>
      if isDotParen c ∨ c = '/' ∨ isWsOrDash c then '_' else pyCharLower c))

/-- Claim-side definition of the amended C7: `.` and parentheses are deleted,
slashes/hyphens/whitespace become underscores, the rest is lowercased, then
underscore runs are collapsed and stripped from the ends (a single left-to-
right pass, in contrast to the source's sequence of substitutions). -/
def normalizeKeyAmended (s : List Char) : List Char :=
  stripUnderscores
    (collapseRunsWith (fun c => c = '_') '_'
      (pyLower
        ((s.filter (fun c => !isDotParen c)).map
          (fun c => if c = '/' ∨ isWsOrDash c then '_' else c))))

/-! ## Family extraction -/

/-- Claim-side helper: the segment of a key before its first `.`, with its
first character uppercased (empty input gives the empty string). -/
def upperFirstSegment (s : List Char) : List Char :=
  match s.takeWhile (fun c => c ≠ '.') with
  | [] => []
  | c :: rest => pyCharUpper c :: rest

/-- Source `extract_family_from_instance_type`; `none` models the
`IndexError` raised by `family_part[0]` when the first segment is empty. -/
def extract_family_from_instance_type (instance_type : List Char) : Option (List Char) :=
  match splitOnChar '.' instance_type with
  | [] => some instance_type
  | family_part :: _ =>
      match family_part with
      | [] => none
      | c :: rest => some (pyCharUpper c :: rest)

/-- Source `extract_rds_family`: strip the `db.` prefix before splitting;
keys without the prefix are returned unchanged. -/
def extract_rds_family (instance_class : List Char) : Option (List Char) :=
  if "db.".data.isPrefixOf instance_class then
    match splitOnChar '.' (instance_class.drop 3) with
    | [] => some instance_class
    | family_part :: _ =>
        match family_part with
        | [] => none
        | c :: rest => some (pyCharUpper c :: rest)
  else some instance_class

/-- Source `extract_elasticache_family`: strip the `cache.` prefix before
splitting; keys without the prefix are returned unchanged. -/
def extract_elasticache_family (node_type : List Char) : Option (List Char) :=
  if "cache.".data.isPrefixOf node_type then
    match splitOnChar '.' (node_type.drop 6) with
    | [] => some node_type
    | family_part :: _ =>
        match family_part with
        | [] => none
        | c :: rest => some (pyCharUpper c :: rest)
  else some node_type

/-- Source `determine_elasticache_category`: classify a family by the first
letter of its lowercased name. -/
def determine_elasticache_category (family : List Char) : List Char :=
  let fl := pyLower family
  if ['t'].isPrefixOf fl then "burstable_performance".data
  else if ['r'].isPrefixOf fl then "memory_optimized".data
  else if ['c'].isPrefixOf fl then "network_optimized".data
  else "general_purpose".data

/-! ## Table Extractor (`parse_table`) -/

/-- A RawRow: the insertion-ordered mapping a body row is turned into. -/
abbrev RawRow := List (List Char × PyVal)

/-- Python `dict` assignment `d[k] = v`: overwrite in place if the key exists,
else append. -/
def dictInsert (d : RawRow) (k : List Char) (v : PyVal) : RawRow :=
  if d.any (fun p => p.1 = k) then
    d.map (fun p => if p.1 = k then (k, v) else p)
  else d ++ [(k, v)]

/-- The positional fallback key `column_{i}` for a cell with no header. -/
def columnKey (i : ℕ) : List Char := "column_".data ++ (toString i).data

/-- Processing of one cell of a body row: clean the text, apply the generic
scalar coercion, then the three header-specific cleanups. -/
def cellValue (header : Option (List Char)) (cell : List Char) : PyVal :=
  let value := parse_basic_value (clean_text cell)
  match header with
  | some h =>
      if h = "instance_type".data then
        match value with
        | .str s => .str (clean_instance_type s)
        | v => v
      else if h = "hypervisor".data then
        match value with
        | .str s => .str (clean_hypervisor s)
        | v => v
      else if h = "supported_operating_systems".data then
        .list (clean_operating_system value)
      else value
  | none => value

/-- The `for i, cell in enumerate(cells)` loop body of `parse_table`. -/
def parseTableRowGo (headers : List (List Char)) : ℕ → List (List Char) → RawRow → RawRow
  | _, [], d => d
  | i, cell :: rest, d =>
      let entry : List Char × PyVal :=
        match headers[i]? with
        | some h => (h, cellValue (some h) cell)
        | none => (columnKey i, cellValue none cell)
      parseTableRowGo headers (i + 1) rest (dictInsert d entry.1 entry.2)

/-- The RawRow built from one body row (list of cell texts). -/
def parseTableRow (headers : List (List Char)) (cells : List (List Char)) : RawRow :=
  parseTableRowGo headers 0 cells []

/-- A parsed HTML table: the header cell texts (empty when there is no
`thead`) and the `td` cell texts of each `tr` of the body. -/
structure HtmlTable where
  headerTexts : List (List Char)
  bodyRows : List (List (List Char))

/-- Source `parse_table`: normalized headers, one RawRow per body row, a row
with no cells skipped, and the built mapping kept only when it is non-empty
with more than one entry. -/
def parse_table (t : HtmlTable) : List RawRow :=
  let headers := t.headerTexts.map (fun th => to_snake_case (clean_text th))
  t.bodyRows.foldr
    (fun cells acc =>
      if cells.isEmpty then acc
      else
        let row_data := parseTableRow headers cells
        if !row_data.isEmpty && row_data.length > 1 then row_data :: acc else acc)
    []

/-- Claim-side count, following the claim C8's words: the number of populated
(non-empty) fields of a RawRow, a field being unpopulated when its value is
the empty string. -/
def countPopulated (row : RawRow) : ℕ :=
  row.countP (fun p => p.2 ≠ PyVal.str [])

/-! ## ElastiCache Record Builder -/

/-- A raw ElastiCache row: cleaned cell strings keyed by normalized header. -/
abbrev ECacheRow := List (List Char × List Char)

/-- Python `row.get(k, dflt)` on an association-list dictionary. -/
def rawGet (row : ECacheRow) (k dflt : List Char) : List Char :=
  match row.find? (fun p => p.1 = k) with
  | some p => p.2
  | none => dflt

/-- The `ElastiCacheNodeDetails` dataclass. -/
structure ElastiCacheNodeDetails where
  nodeType : List Char
  family : List Char
  category : List Char
  vCPUs : Option ℤ
  memoryGiB : Option ℚ
  networkPerformance : List Char
  baselineBandwidthGbps : Option (List Char)
  burstBandwidthGbps : Option (List Char)
deriving DecidableEq

/-- Construction of one `ElastiCacheNodeDetails` from a raw row, as in the
loop body of `process_elasticache_data`; `none` models the `IndexError`
escaping from `extract_elasticache_family`. -/
def buildElastiCacheNode (node_type : List Char) (raw : ECacheRow) :
    Option ElastiCacheNodeDetails :=
  (extract_elasticache_family node_type).map (fun family =>
    let vcpus_str := rawGet raw "vcpus".data (rawGet raw "vcpu".data [])
    let memory_str := rawGet raw "memory_gib".data (rawGet raw "memory".data [])
    let network := rawGet raw "network_performance".data []
    let baseline := rawGet raw "baseline_bandwidth_gbps".data (rawGet raw "baseline_gbps".data [])
    let burst := rawGet raw "burst_bandwidth_gbps".data (rawGet raw "burst_gbps".data [])
    { nodeType := node_type
      family := family
      category := determine_elasticache_category family
      vCPUs := if vcpus_str = [] then none else
        match tryParseInt vcpus_str with
        | some n => some n
        | none => none
      memoryGiB := if memory_str = [] then none else
        match tryParseFloat (memory_str.filter (fun c => c ≠ ',')) with
        | some q => some q
        | none => none
      networkPerformance := if network = [] then [] else network
      baselineBandwidthGbps := if baseline = [] then none else some baseline
      burstBandwidthGbps := if burst = [] then none else some burst })

/-- The loop of `process_elasticache_data` over the raw rows, carrying the
insertion-ordered `nodes` dictionary; `none` = an exception aborts the run. -/
def processElastiCacheGo :
    List ECacheRow → List (List Char × ElastiCacheNodeDetails) →
    Option (List (List Char × ElastiCacheNodeDetails))
  | [], acc => some acc
  | raw :: rest, acc =>
      let node_type := rawGet raw "node_type".data []
      if node_type = [] ∨ ¬ "cache.".data.isPrefixOf node_type then
        processElastiCacheGo rest acc
      else if acc.any (fun p => p.1 = node_type) then
        processElastiCacheGo rest acc
      else
        match buildElastiCacheNode node_type raw with
        | none => none
        | some d => processElastiCacheGo rest (acc ++ [(node_type, d)])

/-- Source `process_elasticache_data`: skip rows whose `node_type` is empty or
lacks the `cache.` prefix, skip duplicates of an already-seen node type, and
build one record per remaining row. -/
def process_elasticache_data (raw_nodes : List ECacheRow) :
    Option (List (List Char × ElastiCacheNodeDetails)) :=
  processElastiCacheGo raw_nodes []

/-! ## Grouping & Manifest Builder -/

/-- The `EC2_CATEGORIES` dictionary keys, in declaration order. -/
def EC2_CATEGORIES_keys : List (List Char) :=
  ["general_purpose".data, "compute_optimized".data, "memory_optimized".data,
   "storage_optimized".data, "accelerated_computing".data, "hpc".data]

/-- The `RDS_CATEGORIES` constant, in declaration order. -/
def RDS_CATEGORIES : List (List Char) :=
  ["general_purpose".data, "memory_optimized".data, "compute_optimized".data,
   "burstable_performance".data]

/-- The `ELASTICACHE_CATEGORIES` constant, in declaration order. -/
def ELASTICACHE_CATEGORIES : List (List Char) :=
  ["general_purpose".data, "memory_optimized".data, "network_optimized".data,
   "burstable_performance".data]

/-- Python `sorted(...)` on a list of strings (lexicographic by code point). -/
def pySorted (l : List (List Char)) : List (List Char) :=
  l.insertionSort (· ≤ ·)

/-- One info manifest: the `families`, `instances` (called `nodeTypes` for
ElastiCache) and `categories` sets of an `info.json` document. -/
structure CatalogManifest where
  families : List (List Char)
  instances : List (List Char)
  categories : List (List Char)
deriving DecidableEq

/-- Source `write_ec2_info_file` (its dictionary content): sorted family
keys, sorted instance keys, and `list(EC2_CATEGORIES.keys())`. -/
def write_ec2_info_file (families instances : List (List Char)) : CatalogManifest :=
  ⟨pySorted families, pySorted instances, EC2_CATEGORIES_keys⟩

/-- Source `write_rds_info_file` (its dictionary content). -/
def write_rds_info_file (families instances : List (List Char)) : CatalogManifest :=
  ⟨pySorted families, pySorted instances, RDS_CATEGORIES⟩

/-- Source `write_elasticache_info_file` (its dictionary content). -/
def write_elasticache_info_file (families nodes : List (List Char)) : CatalogManifest :=
  ⟨pySorted families, pySorted nodes, ELASTICACHE_CATEGORIES⟩

/-! ## Record dataclasses of the EC2 domain

`InstanceDetails` carries the *flattened* family-summary and performance
fields, exactly as the dataclass declares them: it has `hypervisor`,
`processor`, … attributes but **no** `familySummary` and **no** `performance`
attribute. -/

/-- The `NetworkSpec` dataclass (`ena` is declared `bool | str`). -/
structure NetworkSpec where
  bandwidthGbps : BandwidthOrStr
  efa : Bool
  ena : PyVal
  enaExpress : Bool
  networkCards : ℤ
  maxInterfaces : ℤ
  ipv4PerInterface : ℤ
  ipv6 : Bool
deriving DecidableEq

/-- The `EBSSpec` dataclass. -/
structure EBSSpec where
  bandwidthMbps : BandwidthOrStr
  throughputMBps : BandwidthOrStr
  iops : BandwidthOrStr
  nvme : Bool
  volumeLimit : VolumeLimitOrStr
deriving DecidableEq

/-- The `InstanceStoreSpec` dataclass. -/
structure InstanceStoreSpec where
  volumes : List Char
  storeType : List Char
  readIOPS : List Char
  writeIOPS : List Char
  needsInit : Option Bool
  trimSupport : Option Bool
deriving DecidableEq

/-- The `SecuritySpec` dataclass (`instanceStoreEncryption` is declared
`bool | str | None`, modelled as an optional loose value). -/
structure SecuritySpec where
  ebsEncryption : Bool
  instanceStoreEncryption : Option PyVal
  encryptionInTransit : Bool
  amdSEVSNP : Bool
  nitroTPM : Bool
  nitroEnclaves : Bool
deriving DecidableEq

/-- The `InstanceDetails` dataclass, with its flattened field list. -/
structure InstanceDetails where
  instanceType : List Char
  family : List Char
  category : List Char
  hypervisor : List Char
  processorArchitecture : List Char
  metalAvailable : Bool
  dedicatedHosts : Bool
  spot : Bool
  hibernation : Bool
  operatingSystems : List (List Char)
  memoryGiB : ℚ
  processor : List Char
  vCPUs : ℤ
  cpuCores : ℤ
  threadsPerCore : ℤ
  accelerators : Option (List Char)
  acceleratorMemory : Option (List Char)
  network : NetworkSpec
  ebs : EBSSpec
  instanceStore : Option InstanceStoreSpec
  security : SecuritySpec
deriving DecidableEq

/-- The `FamilyData` dataclass. -/
structure FamilyData where
  family : List Char
  category : List Char
  instanceTypes : List (List Char)
  hypervisor : List Char
  processorArchitecture : List Char
  metalAvailable : Bool
  dedicatedHosts : Bool
  spot : Bool
  hibernation : Bool
  operatingSystems : List (List Char)
deriving DecidableEq

/-- The `RDSInstanceDetails` dataclass. -/
structure RDSInstanceDetails where
  instanceClass : List Char
  family : List Char
  category : List Char
  vCPUs : ℤ
  memoryGiB : ℚ
  networkBandwidthGbps : List Char
  ebsBandwidthMbps : List Char
deriving DecidableEq

/-- The `RDSFamilyData` dataclass. -/
structure RDSFamilyData where
  family : List Char
  category : List Char
  instanceClasses : List (List Char)
deriving DecidableEq

/-- The `ElastiCacheFamilyData` dataclass. -/
structure ElastiCacheFamilyData where
  family : List Char
  category : List Char
  nodeTypes : List (List Char)
deriving DecidableEq

/-! ## Schema Emitter (`extract_unique_values`, `generate_union_type`,
`generate_typescript_types`) -/

/-- Result of applying one of the extractor lambdas to an `InstanceDetails`:
a string, a list of strings, some other value, or a raised exception
(`Except.error`), which `extract_unique_values` swallows. -/
inductive ExtractedVal : Type where
  | str (s : List Char)
  | list (l : List (List Char))
  | other
deriving DecidableEq

/-- Lambda `lambda d: d.familySummary.hypervisor` from
`generate_typescript_types`.  `InstanceDetails` has no `familySummary`
attribute (those fields are flattened into the record), so the attribute
access raises `AttributeError` on every input. -/
def familySummaryHypervisor (_ : InstanceDetails) : Except Unit ExtractedVal :=
  Except.error ()

/-- Lambda `lambda d: d.performance.processor`: `InstanceDetails` has no
`performance` attribute, so this raises `AttributeError` on every input. -/
def performanceProcessor (_ : InstanceDetails) : Except Unit ExtractedVal :=
  Except.error ()

/-- Lambda `lambda d: d.familySummary.processorArchitecture`: raises
`AttributeError` on every input (no `familySummary` attribute). -/
def familySummaryArchitecture (_ : InstanceDetails) : Except Unit ExtractedVal :=
  Except.error ()

/-- Lambda `lambda d: d.familySummary.operatingSystems`: raises
`AttributeError` on every input (no `familySummary` attribute). -/
def familySummaryOperatingSystems (_ : InstanceDetails) : Except Unit ExtractedVal :=
  Except.error ()

/-- Lambda `lambda d: d.performance.accelerators`: raises `AttributeError`
on every input (no `performance` attribute). -/
def performanceAccelerators (_ : InstanceDetails) : Except Unit ExtractedVal :=
  Except.error ()

/-- The strings one record contributes to `extract_unique_values`: nothing on
an exception, a non-empty string value, or the non-empty string elements of a
list value. -/
def extractedOf : Except Unit ExtractedVal → List (List Char)
  | .error _ => []
  | .ok (.str s) => if s ≠ [] then [s] else []
  | .ok (.list l) => l.filter (fun v => v ≠ [])
  | .ok .other => []

/-- Source `extract_unique_values`: the set of unique non-empty string values
the extractor yields over all records (the Python `set` is represented by the
contributed values in iteration order; consumers test emptiness and sort). -/
def extract_unique_values (instances : List (List Char × InstanceDetails))
    (extractor : InstanceDetails → Except Unit ExtractedVal) : List (List Char) :=
  instances.flatMap (fun kv => extractedOf (extractor kv.2))

/-- Python `sorted(<set>)`: the distinct values in lexicographic order. -/
def pySortedSet (l : List (List Char)) : List (List Char) :=
  pySorted l.dedup

/-- Keys of an insertion-ordered dictionary (`set(d.keys())` before
deduplication; dictionary keys are already distinct). -/
def dictKeys {α : Type} (l : List (List Char × α)) : List (List Char) :=
  l.map Prod.fst

/-- Source `generate_union_type`: an empty value set degrades to the open
alias `export type N = string;`, otherwise a closed union of the sorted
values. -/
def generate_union_type (name : List Char) (values : List (List Char)) : List Char :=
  if values.isEmpty then
    "export type ".data ++ name ++ " = string;\n".data
  else
    let sorted_values := pySortedSet values
    let lines := sorted_values.map (fun v => "  | \"".data ++ v ++ "\"".data)
    "export type ".data ++ name ++ " =\n".data ++
      List.intercalate "\n".data lines ++ ";\n".data

/-- The fixed `// === EC2 Interfaces ===` block of the generated document. -/
def ec2InterfacesBlock : List Char := String.data <|
  "// === EC2 Interfaces ===\n" ++
  "\n" ++
  "export interface BandwidthSpec \x7b\n" ++
  "  baseline: number | null;\n" ++
  "  burst: number | null;\n" ++
  "\x7d\n" ++
  "\n" ++
  "export interface VolumeLimitSpec \x7b\n" ++
  "  limit: number;\n" ++
  "  limitType: string;\n" ++
  "\x7d\n" ++
  "\n" ++
  "export interface EC2NetworkSpec \x7b\n" ++
  "  bandwidthGbps: BandwidthSpec | string;\n" ++
  "  efa: boolean;\n" ++
  "  ena: boolean | string;\n" ++
  "  enaExpress: boolean;\n" ++
  "  networkCards: number;\n" ++
  "  maxInterfaces: number;\n" ++
  "  ipv4PerInterface: number;\n" ++
  "  ipv6: boolean;\n" ++
  "\x7d\n" ++
  "\n" ++
  "export interface EC2EBSSpec \x7b\n" ++
  "  bandwidthMbps: BandwidthSpec | string;\n" ++
  "  throughputMBps: BandwidthSpec | string;\n" ++
  "  iops: BandwidthSpec | string;\n" ++
  "  nvme: boolean;\n" ++
  "  volumeLimit: VolumeLimitSpec | string;\n" ++
  "\x7d\n" ++
  "\n" ++
  "export interface EC2InstanceStoreSpec \x7b\n" ++
  "  volumes: string;\n" ++
  "  storeType: string;\n" ++
  "  readIOPS: string;\n" ++
  "  writeIOPS: string;\n" ++
  "  needsInit: boolean | null;\n" ++
  "  trimSupport: boolean | null;\n" ++
  "\x7d\n" ++
  "\n" ++
  "export interface EC2SecuritySpec \x7b\n" ++
  "  ebsEncryption: boolean;\n" ++
  "  instanceStoreEncryption: boolean | string | null;\n" ++
  "  encryptionInTransit: boolean;\n" ++
  "  amdSEVSNP: boolean;\n" ++
  "  nitroTPM: boolean;\n" ++
  "  nitroEnclaves: boolean;\n" ++
  "\x7d\n" ++
  "\n" ++
  "export interface EC2InstanceDetails \x7b\n" ++
  "  instanceType: EC2InstanceType;\n" ++
  "  family: EC2InstanceFamily;\n" ++
  "  category: EC2Category;\n" ++
  "  // Flattened familySummary fields\n" ++
  "  hypervisor: EC2Hypervisor;\n" ++
  "  processorArchitecture: EC2ProcessorArchitecture;\n" ++
  "  metalAvailable: boolean;\n" ++
  "  dedicatedHosts: boolean;\n" ++
  "  spot: boolean;\n" ++
  "  hibernation: boolean;\n" ++
  "  operatingSystems: EC2OperatingSystem[];\n" ++
  "  // Flattened performance fields\n" ++
  "  memoryGiB: number;\n" ++
  "  processor: EC2Processor;\n" ++
  "  vCPUs: number;\n" ++
  "  cpuCores: number;\n" ++
  "  threadsPerCore: number;\n" ++
  "  accelerators: EC2Accelerator | null;\n" ++
  "  acceleratorMemory: string | null;\n" ++
  "  // Nested specs\n" ++
  "  network: EC2NetworkSpec;\n" ++
  "  ebs: EC2EBSSpec;\n" ++
  "  instanceStore: EC2InstanceStoreSpec | null;\n" ++
  "  security: EC2SecuritySpec;\n" ++
  "\x7d\n" ++
  "\n" ++
  "export interface EC2FamilyData \x7b\n" ++
  "  family: EC2InstanceFamily;\n" ++
  "  category: EC2Category;\n" ++
  "  instanceTypes: EC2InstanceType[];\n" ++
  "  hypervisor: EC2Hypervisor;\n" ++
  "  processorArchitecture: EC2ProcessorArchitecture;\n" ++
  "  metalAvailable: boolean;\n" ++
  "  dedicatedHosts: boolean;\n" ++
  "  spot: boolean;\n" ++
  "  hibernation: boolean;\n" ++
  "  operatingSystems: EC2OperatingSystem[];\n" ++
  "\x7d\n" ++
  "\n" ++
  "export interface EC2Info \x7b\n" ++
  "  families: EC2InstanceFamily[];\n" ++
  "  instances: EC2InstanceType[];\n" ++
  "  categories: EC2Category[];\n" ++
  "\x7d\n" ++
  "\n"

/-- The fixed `// === RDS Interfaces ===` block of the generated document. -/
def rdsInterfacesBlock : List Char := String.data <|
  "// === RDS Interfaces ===\n" ++
  "\n" ++
  "export interface RDSInstanceDetails \x7b\n" ++
  "  instanceClass: RDSInstanceClass;\n" ++
  "  family: RDSInstanceFamily;\n" ++
  "  category: RDSCategory;\n" ++
  "  vCPUs: number;\n" ++
  "  memoryGiB: number;\n" ++
  "  networkBandwidthGbps: string;\n" ++
  "  ebsBandwidthMbps: string;\n" ++
  "\x7d\n" ++
  "\n" ++
  "export interface RDSFamilyData \x7b\n" ++
  "  family: RDSInstanceFamily;\n" ++
  "  category: RDSCategory;\n" ++
  "  instanceClasses: RDSInstanceClass[];\n" ++
  "\x7d\n" ++
  "\n" ++
  "export interface RDSInfo \x7b\n" ++
  "  families: RDSInstanceFamily[];\n" ++
  "  instances: RDSInstanceClass[];\n" ++
  "  categories: RDSCategory[];\n" ++
  "\x7d\n"

/-- The fixed `// === Elasticache Interfaces ===` block of the document. -/
def elasticacheInterfacesBlock : List Char := String.data <|
  "// === Elasticache Interfaces ===\n" ++
  "\n" ++
  "export interface ElastiCacheNodeDetails \x7b\n" ++
  "  nodeType: ElastiCacheNodeType;\n" ++
  "  family: ElastiCacheFamily;\n" ++
  "  category: ElastiCacheCategory;\n" ++
  "  vCPUs: number | null;\n" ++
  "  memoryGiB: number | null;\n" ++
  "  networkPerformance: string;\n" ++
  "  baselineBandwidthGbps: string | null;\n" ++
  "  burstBandwidthGbps: string | null;\n" ++
  "\x7d\n" ++
  "\n" ++
  "export interface ElastiCacheFamilyData \x7b\n" ++
  "  family: ElastiCacheFamily;\n" ++
  "  category: ElastiCacheCategory;\n" ++
  "  nodeTypes: ElastiCacheNodeType[];\n" ++
  "\x7d\n" ++
  "\n" ++
  "export interface ElastiCacheInfo \x7b\n" ++
  "  families: ElastiCacheFamily[];\n" ++
  "  nodeTypes: ElastiCacheNodeType[];\n" ++
  "  categories: ElastiCacheCategory[];\n" ++
  "\x7d\n"

/-- The section-header rule of the generated document: `// ` followed by a
sixty-character `=` ruler and a newline (a literal string in the source). -/
def bannerRule : List Char := "// ".data ++ List.replicate 60 '=' ++ "\n".data

/-- Source `generate_typescript_types`: the full generated type-definition
document (`"".join(ts_parts)`). -/
def generate_typescript_types
    (ec2_instances : List (List Char × InstanceDetails))
    (ec2_families : List (List Char × FamilyData))
    (rds_instances : List (List Char × RDSInstanceDetails))
    (rds_families : List (List Char × RDSFamilyData))
    (elasticache_nodes : List (List Char × ElastiCacheNodeDetails))
    (elasticache_families : List (List Char × ElastiCacheFamilyData)) : List Char :=
  let ec2_instance_types := dictKeys ec2_instances
  let ec2_family_names := dictKeys ec2_families
  let ec2_categories := EC2_CATEGORIES_keys
  let hypervisors := extract_unique_values ec2_instances familySummaryHypervisor
  let processors := extract_unique_values ec2_instances performanceProcessor
  let architectures := extract_unique_values ec2_instances familySummaryArchitecture
  let operating_systems := extract_unique_values ec2_instances familySummaryOperatingSystems
  let accelerators := extract_unique_values ec2_instances performanceAccelerators
  let rds_instance_classes := dictKeys rds_instances
  let rds_family_names := dictKeys rds_families
  let rds_categories := RDS_CATEGORIES
  let elasticache_node_types := dictKeys elasticache_nodes
  let elasticache_family_names := dictKeys elasticache_families
  let elasticache_categories := ELASTICACHE_CATEGORIES
  List.flatten
    [ "// Auto-generated by scripts/generate.py - DO NOT EDIT\n\n".data,
      bannerRule,
      "// EC2 Types\n".data,
      bannerRule ++ "\n".data,
      generate_union_type "EC2InstanceType".data ec2_instance_types,
      "\n".data,
      generate_union_type "EC2InstanceFamily".data ec2_family_names,
      "\n".data,
      generate_union_type "EC2Category".data ec2_categories,
      "\n".data,
      generate_union_type "EC2Hypervisor".data hypervisors,
      "\n".data,
      generate_union_type "EC2ProcessorArchitecture".data architectures,
      "\n".data,
      generate_union_type "EC2Processor".data processors,
      "\n".data,
      generate_union_type "EC2OperatingSystem".data operating_systems,
      "\n".data,
      generate_union_type "EC2Accelerator".data accelerators,
      "\n".data,
      ec2InterfacesBlock,
      bannerRule,
      "// RDS Types\n".data,
      bannerRule ++ "\n".data,
      generate_union_type "RDSInstanceClass".data rds_instance_classes,
      "\n".data,
      generate_union_type "RDSInstanceFamily".data rds_family_names,
      "\n".data,
      generate_union_type "RDSCategory".data rds_categories,
      "\n".data,
      rdsInterfacesBlock,
      bannerRule,
      "// Elasticache Types\n".data,
      bannerRule ++ "\n".data,
      generate_union_type "ElastiCacheNodeType".data elasticache_node_types,
      "\n".data,
      generate_union_type "ElastiCacheFamily".data elasticache_family_names,
      "\n".data,
      generate_union_type "ElastiCacheCategory".data elasticache_categories,
      "\n".data,
      elasticacheInterfacesBlock ]

/-! ## Concrete sample data used by counterexamples and witnesses -/

/-- A concrete `InstanceDetails` record (an `m5.large`-shaped row) whose
enumerable fields all hold non-empty observed values. -/
def sampleInstance : InstanceDetails where
  instanceType := "m5.large".data
  family := "M5".data
  category := "general_purpose".data
  hypervisor := "Nitro".data
  processorArchitecture := "x86_64".data
  metalAvailable := false
  dedicatedHosts := true
  spot := true
  hibernation := true
  operatingSystems := ["Linux".data, "Windows".data]
  memoryGiB := 8
  processor := "Intel Xeon Platinum 8175".data
  vCPUs := 2
  cpuCores := 1
  threadsPerCore := 2
  accelerators := some "GPU".data
  acceleratorMemory := none
  network := ⟨.spec ⟨some (3/4), some 10⟩, false, .bool true, false, 1, 3, 10, true⟩
  ebs := ⟨.spec ⟨some 650, some 4750⟩, .spec ⟨some 81, some 593⟩, .spec ⟨some 3600, some 18750⟩,
          true, .spec 27 "shared".data⟩
  instanceStore := none
  security := ⟨true, none, true, false, false, true⟩

/-- A one-record EC2 dataset containing `sampleInstance`. -/
def sampleEC2Dataset : List (List Char × InstanceDetails) :=
  [("m5.large".data, sampleInstance)]

/-- A second concrete `InstanceDetails` record, distinct from
`sampleInstance`, for permutation witnesses. -/
def sampleInstance2 : InstanceDetails :=
  { sampleInstance with
      instanceType := "c7i-flex.xlarge".data
      family := "C7i-flex".data
      hypervisor := "Xen".data }

/-! # Helper lemmas -/

theorem pySorted_sorted (l : List (List Char)) : List.Sorted (· ≤ ·) (pySorted l) :=
  List.sorted_insertionSort _ l

theorem pySorted_perm (l : List (List Char)) : (pySorted l).Perm l :=
  List.perm_insertionSort _ l

theorem pySorted_nodup {l : List (List Char)} (h : l.Nodup) : (pySorted l).Nodup :=
  (pySorted_perm l).nodup_iff.mpr h

theorem pySortedSet_sorted (l : List (List Char)) : List.Sorted (· ≤ ·) (pySortedSet l) :=
  pySorted_sorted _

theorem pySortedSet_perm {l₁ l₂ : List (List Char)} (h : l₁.Perm l₂) :
    pySortedSet l₁ = pySortedSet l₂ := by
  refine List.eq_of_perm_of_sorted ?_ (pySorted_sorted _) (pySorted_sorted _)
  exact ((pySorted_perm _).trans h.dedup).trans (pySorted_perm _).symm

/-! # C2 — manifest sets -/

/-- Claim C2 as stated is false: the `categories` set of the EC2 manifest is
`list(EC2_CATEGORIES.keys())`, which is in declaration order
(`general_purpose` before `compute_optimized`, …), not sorted ascending. -/
theorem C2_counterexample :
    ¬ List.Sorted (· ≤ ·) (write_ec2_info_file [] []).categories := by
  decide

/-- Amended C2: in every manifest the `families` and `instances`/`nodeTypes`
sets are sorted ascending and (for duplicate-free key sets, as dictionary
keys are) duplicate-free; the `categories` set is duplicate-free but is the
fixed declaration-order category list of its domain, not sorted. -/
theorem C2_manifest_sets (ef ei rf ri cf cn : List (List Char))
    (hef : ef.Nodup) (hei : ei.Nodup) (hrf : rf.Nodup)
    (hri : ri.Nodup) (hcf : cf.Nodup) (hcn : cn.Nodup) :
    (List.Sorted (· ≤ ·) (write_ec2_info_file ef ei).families ∧
     List.Sorted (· ≤ ·) (write_ec2_info_file ef ei).instances ∧
     (write_ec2_info_file ef ei).families.Nodup ∧
     (write_ec2_info_file ef ei).instances.Nodup ∧
     (write_ec2_info_file ef ei).categories = EC2_CATEGORIES_keys ∧
     EC2_CATEGORIES_keys.Nodup) ∧
    (List.Sorted (· ≤ ·) (write_rds_info_file rf ri).families ∧
     List.Sorted (· ≤ ·) (write_rds_info_file rf ri).instances ∧
     (write_rds_info_file rf ri).families.Nodup ∧
     (write_rds_info_file rf ri).instances.Nodup ∧
     (write_rds_info_file rf ri).categories = RDS_CATEGORIES ∧
     RDS_CATEGORIES.Nodup) ∧
    (List.Sorted (· ≤ ·) (write_elasticache_info_file cf cn).families ∧
     List.Sorted (· ≤ ·) (write_elasticache_info_file cf cn).instances ∧
     (write_elasticache_info_file cf cn).families.Nodup ∧
     (write_elasticache_info_file cf cn).instances.Nodup ∧
     (write_elasticache_info_file cf cn).categories = ELASTICACHE_CATEGORIES ∧
     ELASTICACHE_CATEGORIES.Nodup) := by
  refine ⟨⟨pySorted_sorted _, pySorted_sorted _, pySorted_nodup hef, pySorted_nodup hei,
           rfl, by decide⟩,
          ⟨pySorted_sorted _, pySorted_sorted _, pySorted_nodup hrf, pySorted_nodup hri,
           rfl, by decide⟩,
          ⟨pySorted_sorted _, pySorted_sorted _, pySorted_nodup hcf, pySorted_nodup hcn,
           rfl, by decide⟩⟩

/-- Witness for `C2_manifest_sets` at concrete duplicate-free key lists. -/
theorem C2_manifest_sets_witness :
    (["b".data, "a".data] : List (List Char)).Nodup ∧
    (List.Sorted (· ≤ ·)
      (write_ec2_info_file ["b".data, "a".data] ["x".data]).families) := by
  refine ⟨by decide, ?_⟩
  exact (C2_manifest_sets ["b".data, "a".data] ["x".data] [] [] [] []
    (by decide) (by decide) (by decide) (by decide) (by decide) (by decide)).1.1

/-! # C1 — enumerable fields degrade to open types -/

/-- Claim C1 is right about the intent but the code is broken: the extractor
lambdas read `d.familySummary.*` / `d.performance.*`, attributes the flattened
`InstanceDetails` dataclass does not have, and `extract_unique_values`
swallows the `AttributeError`.  On a dataset with one record whose
hypervisor, processor, architecture, operating systems and accelerator are
all non-empty, every one of the five observed-value sets is empty and every
one of the five enumeration declarations degrades to the open alias
`export type N = string;`. -/
theorem C1_enumerations_degrade :
    (sampleInstance.hypervisor ≠ [] ∧
     sampleInstance.processor ≠ [] ∧
     sampleInstance.processorArchitecture ≠ [] ∧
     sampleInstance.operatingSystems ≠ [] ∧
     sampleInstance.accelerators ≠ none) ∧
    (extract_unique_values sampleEC2Dataset familySummaryHypervisor = [] ∧
     extract_unique_values sampleEC2Dataset performanceProcessor = [] ∧
     extract_unique_values sampleEC2Dataset familySummaryArchitecture = [] ∧
     extract_unique_values sampleEC2Dataset familySummaryOperatingSystems = [] ∧
     extract_unique_values sampleEC2Dataset performanceAccelerators = []) ∧
    (generate_union_type "EC2Hypervisor".data
        (extract_unique_values sampleEC2Dataset familySummaryHypervisor) =
      "export type EC2Hypervisor = string;\n".data ∧
     generate_union_type "EC2Processor".data
        (extract_unique_values sampleEC2Dataset performanceProcessor) =
      "export type EC2Processor = string;\n".data ∧
     generate_union_type "EC2ProcessorArchitecture".data
        (extract_unique_values sampleEC2Dataset familySummaryArchitecture) =
      "export type EC2ProcessorArchitecture = string;\n".data ∧
     generate_union_type "EC2OperatingSystem".data
        (extract_unique_values sampleEC2Dataset familySummaryOperatingSystems) =
      "export type EC2OperatingSystem = string;\n".data ∧
     generate_union_type "EC2Accelerator".data
        (extract_unique_values sampleEC2Dataset performanceAccelerators) =
      "export type EC2Accelerator = string;\n".data) := by
  refine ⟨⟨by decide, by decide, by decide, by decide, by decide⟩,
          ⟨rfl, rfl, rfl, rfl, rfl⟩, ⟨by decide, by decide, by decide, by decide, by decide⟩⟩

/-! # C5 — bandwidth coercion -/

theorem splitOnChar_of_not_mem {sep : Char} {l : List Char} (h : sep ∉ l) :
    splitOnChar sep l = [l] := by
  induction l with
  | nil => rfl
  | cons c cs ih =>
      have hc : ¬ c = sep := fun he => h (by rw [he]; exact List.mem_cons_self sep cs)
      have hcs : sep ∉ cs := fun hm => h (List.mem_cons_of_mem c hm)
      simp [splitOnChar, hc, ih hcs]

/-- Claim C5: numeric inputs become `{baseline, burst: null}`; every two-part
`A / B` string without the `Gigabit` keyword whose stripped halves both parse
as floats becomes `{baseline, burst}` (in particular `"0.75 / 10.0"` gives
`{0.75, 10.0}`); any string containing the keyword, and any string whose
halves fail float parsing, is returned verbatim (`"100 Gigabit"` stays
`"100 Gigabit"`). -/
theorem C5_parse_bandwidth :
    (∀ n : ℤ, parse_bandwidth (.int n) = .spec ⟨some (n : ℚ), none⟩) ∧
    (∀ q : ℚ, parse_bandwidth (.float q) = .spec ⟨some q, none⟩) ∧
    parse_bandwidth (.str "0.75 / 10.0".data) = .spec ⟨some (3/4 : ℚ), some 10⟩ ∧
    parse_bandwidth (.str "100 Gigabit".data) = .str "100 Gigabit".data ∧
    (∀ s, isSubstringOf "Gigabit".data s = true → parse_bandwidth (.str s) = .str s) ∧
    (∀ s a b, splitOnChar '/' s = [a, b] →
      tryParseFloat (pyStrip a) = none ∨ tryParseFloat (pyStrip b) = none →
      parse_bandwidth (.str s) = .str s) ∧
    (∀ s a b x y, splitOnChar '/' s = [a, b] →
      ¬ isSubstringOf "Gigabit".data s = true →
      tryParseFloat (pyStrip a) = some x → tryParseFloat (pyStrip b) = some y →
      parse_bandwidth (.str s) = .spec ⟨some x, some y⟩) := by
  refine ⟨fun n => rfl, fun q => rfl, ?_, by decide, ?_, ?_, ?_⟩
  · have ha : tryParseFloat (pyStrip "0.75 ".data) =
        some ((1 : ℚ) * ((0 : ℚ) + 75 / 10 ^ 2)) := rfl
    have hb : tryParseFloat (pyStrip " 10.0".data) =
        some ((1 : ℚ) * ((10 : ℚ) + 0 / 10 ^ 1)) := rfl
    have hsplit : splitOnChar '/' "0.75 / 10.0".data = ["0.75 ".data, " 10.0".data] := by
      decide
    have hc : '/' ∈ "0.75 / 10.0".data ∧
        ¬ isSubstringOf "Gigabit".data "0.75 / 10.0".data = true := by decide
    simp [parse_bandwidth, hc, hsplit, ha, hb]
    norm_num
  · intro s h
    simp only [parse_bandwidth]
    rw [if_neg]
    simp [h]
  · intro s a b hsplit hfail
    by_cases hc : '/' ∈ s ∧ ¬ isSubstringOf "Gigabit".data s = true
    · rcases ha : tryParseFloat (pyStrip a) with _ | x
      · simp [parse_bandwidth, hc, hsplit, ha]
      · rcases hb : tryParseFloat (pyStrip b) with _ | y
        · simp [parse_bandwidth, hc, hsplit, ha, hb]
        · rcases hfail with h | h
          · rw [ha] at h; cases h
          · rw [hb] at h; cases h
    · simp only [parse_bandwidth]
      rw [if_neg hc]
  · intro s a b x y hsplit hgig ha hb
    have hmem : '/' ∈ s := by
      by_contra hm
      rw [splitOnChar_of_not_mem hm] at hsplit
      simp at hsplit
    have hc : '/' ∈ s ∧ ¬ isSubstringOf "Gigabit".data s = true := ⟨hmem, hgig⟩
    simp [parse_bandwidth, hc, hsplit, ha, hb]

/-- Witness for `C5_parse_bandwidth`, discharging its conditional parts at
concrete inputs. -/
theorem C5_parse_bandwidth_witness :
    (isSubstringOf "Gigabit".data "Up to 100 Gigabit".data = true ∧
     parse_bandwidth (.str "Up to 100 Gigabit".data) = .str "Up to 100 Gigabit".data) ∧
    (splitOnChar '/' "Low / Moderate".data = ["Low ".data, " Moderate".data] ∧
     tryParseFloat (pyStrip "Low ".data) = none ∧
     parse_bandwidth (.str "Low / Moderate".data) = .str "Low / Moderate".data) ∧
    (splitOnChar '/' "0.75 / 10.0".data = ["0.75 ".data, " 10.0".data] ∧
     parse_bandwidth (.str "0.75 / 10.0".data) =
       .spec ⟨some ((1 : ℚ) * ((0 : ℚ) + 75 / 10 ^ 2)),
              some ((1 : ℚ) * ((10 : ℚ) + 0 / 10 ^ 1))⟩) := by
  refine ⟨⟨by decide, C5_parse_bandwidth.2.2.2.2.1 _ (by decide)⟩,
          ⟨by decide, by decide,
           C5_parse_bandwidth.2.2.2.2.2.1 "Low / Moderate".data "Low ".data " Moderate".data
             (by decide) (Or.inl (by decide))⟩,
          ⟨by decide,
           C5_parse_bandwidth.2.2.2.2.2.2 "0.75 / 10.0".data "0.75 ".data " 10.0".data
             ((1 : ℚ) * ((0 : ℚ) + 75 / 10 ^ 2)) ((1 : ℚ) * ((10 : ℚ) + 0 / 10 ^ 1))
             (by decide) (by decide) rfl rfl⟩⟩

/-! # C6 — volume-limit coercion

The lemmas below establish the anchoring property behind the amendment: a
string the pattern matches in full still matches with arbitrary text appended
after the closing parenthesis, with the same captures. -/

theorem orElse_eq_some_iff {α : Type} (o : Option α) (f : Unit → Option α) (a : α) :
    o.orElse f = some a ↔ o = some a ∨ (o = none ∧ f () = some a) := by
  cases o <;> simp [Option.orElse]

theorem ciPrefixDrop_append {pat s r : List Char} (j : List Char)
    (h : ciPrefixDrop pat s = some r) :
    ciPrefixDrop pat (s ++ j) = some (r ++ j) := by
  induction pat generalizing s with
  | nil =>
      cases h
      rfl
  | cons p ps ih =>
      rcases s with _ | ⟨c, cs⟩
      · cases h
      · rw [ciPrefixDrop] at h
        split at h
        · rename_i hc
          rw [List.cons_append, ciPrefixDrop, if_pos hc]
          exact ih h
        · cases h

theorem ciPrefixDrop_none_append {pat s : List Char} (j : List Char)
    (h : ciPrefixDrop pat s = none) (hlen : pat.length ≤ s.length) :
    ciPrefixDrop pat (s ++ j) = none := by
  induction pat generalizing s with
  | nil => cases h
  | cons p ps ih =>
      rcases s with _ | ⟨c, cs⟩
      · simp at hlen
      · rw [ciPrefixDrop] at h
        rw [List.cons_append, ciPrefixDrop]
        split at h
        · rename_i hc
          rw [if_pos hc]
          exact ih h (by simpa using Nat.le_of_succ_le_succ (by simpa using hlen))
        · rename_i hc
          rw [if_neg hc]

theorem ciPrefixDrop_cons_head {p : Char} {ps s r : List Char}
    (h : ciPrefixDrop (p :: ps) s = some r) :
    ∃ c cs, s = c :: cs ∧ pyCharLower c = pyCharLower p := by
  rcases s with _ | ⟨c, cs⟩
  · cases h
  · rw [ciPrefixDrop] at h
    split at h
    · rename_i hc
      exact ⟨c, cs, rfl, hc⟩
    · cases h

theorem ciPrefixDrop_head_mismatch {p : Char} {ps : List Char} {c : Char} {cs : List Char}
    (h : pyCharLower c ≠ pyCharLower p) :
    ciPrefixDrop (p :: ps) (c :: cs) = none := by
  rw [ciPrefixDrop, if_neg h]

theorem ciPrefixDrop_length {pat s r : List Char} (h : ciPrefixDrop pat s = some r) :
    s.length = pat.length + r.length := by
  induction pat generalizing s with
  | nil =>
      cases h
      simp
  | cons p ps ih =>
      rcases s with _ | ⟨c, cs⟩
      · cases h
      · rw [ciPrefixDrop] at h
        split at h
        · have := ih h
          simp only [List.length_cons]
          omega
        · cases h

theorem takeWhile_ne_nil_head {p : Char → Bool} {l : List Char}
    (h : l.takeWhile p ≠ []) : ∃ c cs, l = c :: cs ∧ p c = true := by
  rcases l with _ | ⟨c, cs⟩
  · exact absurd rfl h
  · refine ⟨c, cs, rfl, ?_⟩
    by_contra hc
    rw [List.takeWhile_cons, if_neg hc] at h
    exact h rfl

theorem takeWhile_append_left (p : Char → Bool) (s j : List Char)
    (h : s.dropWhile p ≠ []) : (s ++ j).takeWhile p = s.takeWhile p := by
  induction s with
  | nil => exact absurd rfl h
  | cons c cs ih =>
      by_cases hc : p c = true
      · rw [List.dropWhile_cons, if_pos hc] at h
        rw [List.cons_append, List.takeWhile_cons, if_pos hc,
            List.takeWhile_cons, if_pos hc, ih h]
      · rw [List.cons_append, List.takeWhile_cons, if_neg hc, List.takeWhile_cons, if_neg hc]

theorem dropWhile_append_left (p : Char → Bool) (s j : List Char)
    (h : s.dropWhile p ≠ []) : (s ++ j).dropWhile p = s.dropWhile p ++ j := by
  induction s with
  | nil => exact absurd rfl h
  | cons c cs ih =>
      by_cases hc : p c = true
      · rw [List.dropWhile_cons, if_pos hc] at h
        rw [List.cons_append, List.dropWhile_cons, if_pos hc,
            List.dropWhile_cons, if_pos hc, ih h]
      · rw [List.cons_append, List.dropWhile_cons, if_neg hc, List.dropWhile_cons, if_neg hc]
        rfl

theorem drop_length_takeWhile (p : Char → Bool) (l : List Char) :
    l.drop (l.takeWhile p).length = l.dropWhile p := by
  induction l with
  | nil => rfl
  | cons c cs ih =>
      by_cases hc : p c = true
      · rw [List.takeWhile_cons, if_pos hc, List.dropWhile_cons, if_pos hc]
        simpa using ih
      · rw [List.takeWhile_cons, if_neg hc, List.dropWhile_cons, if_neg hc]
        rfl

theorem length_dropWhile_le (p : Char → Bool) (l : List Char) :
    (l.dropWhile p).length ≤ l.length := by
  induction l with
  | nil => simp
  | cons c cs ih =>
      by_cases hc : p c = true
      · rw [List.dropWhile_cons, if_pos hc]
        simp only [List.length_cons]
        omega
      · rw [List.dropWhile_cons, if_neg hc]

theorem pyCharLower_of_isDigit {c : Char} (h : c.isDigit = true) : pyCharLower c = c := by
  rw [pyCharLower, if_neg]
  rintro ⟨h1, h2⟩
  simp only [Char.isDigit, Bool.and_eq_true, decide_eq_true_eq] at h
  have h2c : c ≤ '9' := h.2
  exact absurd (le_trans h1 h2c) (by decide)

theorem pyCharLower_of_isPySpace {c : Char} (h : isPySpace c = true) : pyCharLower c = c := by
  rw [pyCharLower, if_neg]
  rintro ⟨h1, h2⟩
  simp only [isPySpace, Bool.or_eq_true, decide_eq_true_eq] at h
  rcases h with ((((h | h) | h) | h) | h) | h <;> subst h <;> exact absurd h1 (by decide)

theorem parenTailAfterLimit_some {y tail : List Char}
    (h : parenTailAfterLimit y = some tail) :
    (∃ c cs, y = c :: cs ∧ pyCharLower c = 'l') ∧ y.length = 6 + tail.length := by
  rw [parenTailAfterLimit] at h
  split at h
  · rename_i r2 hr2
    split at h
    · cases h
      obtain ⟨c, cs, hy, hc⟩ := ciPrefixDrop_cons_head hr2
      refine ⟨⟨c, cs, hy, by simpa using hc⟩, ?_⟩
      have hl := ciPrefixDrop_length hr2
      have h5 : ("limit".data : List Char).length = 5 := rfl
      simp only [List.length_cons, h5] at hl
      omega
    · cases h
  · cases h

theorem parenTailAfterLimit_append {y tail : List Char} (j : List Char)
    (h : parenTailAfterLimit y = some tail) :
    parenTailAfterLimit (y ++ j) = some (tail ++ j) := by
  rw [parenTailAfterLimit] at h
  split at h
  · rename_i r2 hr2
    split at h
    · cases h
      rw [parenTailAfterLimit, ciPrefixDrop_append j hr2]
      rfl
    · cases h
  · cases h

theorem qualifierAltBased_append {w rest q : List Char} (j : List Char)
    (h : qualifierAltBased w rest = some (q, [])) :
    qualifierAltBased w (rest ++ j) = some (q, j) := by
  rcases rest with _ | ⟨c, r1⟩
  · cases h
  · rw [qualifierAltBased] at h
    split at h
    · rename_i hc
      split at h
      · rename_i r2 hr2
        rw [Option.map_eq_some'] at h
        obtain ⟨tail, htail, heq⟩ := h
        injection heq with hq htail0
        rw [htail0] at htail
        have hy : r2.dropWhile isPySpace ≠ [] := by
          intro he
          rw [he] at htail
          cases htail
        rw [List.cons_append, qualifierAltBased, if_pos hc, ciPrefixDrop_append j hr2]
        show (parenTailAfterLimit ((r2 ++ j).dropWhile isPySpace)).map
            (fun tail => (w, tail)) = some (q, j)
        rw [dropWhile_append_left _ _ _ hy, parenTailAfterLimit_append j htail]
        simp [hq]
      · cases h
    · cases h

theorem qualifierAltPlain_append {w rest q : List Char} (j : List Char)
    (h : qualifierAltPlain w rest = some (q, [])) :
    qualifierAltPlain w (rest ++ j) = some (q, j) := by
  rw [qualifierAltPlain, Option.map_eq_some'] at h
  obtain ⟨tail, htail, heq⟩ := h
  injection heq with hq htail0
  rw [htail0] at htail
  have hy : rest.dropWhile isPySpace ≠ [] := by
    intro he
    rw [he] at htail
    cases htail
  rw [qualifierAltPlain, dropWhile_append_left _ _ _ hy,
      parenTailAfterLimit_append j htail]
  simp [hq]

theorem qualifierAltGiveback_some {w rest q tail : List Char}
    (h : qualifierAltGiveback w rest = some (q, tail)) :
    rest = ')' :: tail ∧ q = w.take (w.length - 5) ∧
    (5 < w.length ∧ (pyLower w).drop (w.length - 5) = "limit".data) := by
  rw [qualifierAltGiveback.eq_def] at h
  split at h
  · rename_i tail'
    split at h
    · rename_i hcond
      cases h
      exact ⟨rfl, rfl, hcond⟩
    · cases h
  · cases h

theorem qualifierAltGiveback_append {w rest q : List Char} (j : List Char)
    (h : qualifierAltGiveback w rest = some (q, [])) :
    qualifierAltGiveback w (rest ++ j) = some (q, j) := by
  obtain ⟨hrest, hq, hcond⟩ := qualifierAltGiveback_some h
  subst hrest
  rw [List.cons_append, List.nil_append, qualifierAltGiveback, if_pos hcond, hq]

theorem qualifierAltBased_none_append {w rest q : List Char} (j : List Char)
    (h1 : qualifierAltBased w rest = none)
    (h2 : (qualifierAltPlain w rest).orElse (fun _ => qualifierAltGiveback w rest) =
      some (q, [])) :
    qualifierAltBased w (rest ++ j) = none := by
  rcases rest with _ | ⟨c, r1⟩
  · -- the plain and giveback continuations both need a non-empty remainder
    exfalso
    rw [orElse_eq_some_iff] at h2
    rcases h2 with h2 | ⟨-, h2⟩
    · rw [qualifierAltPlain, Option.map_eq_some'] at h2
      obtain ⟨tail, htail, -⟩ := h2
      obtain ⟨⟨c, cs, hy, -⟩, -⟩ := parenTailAfterLimit_some htail
      cases hy
    · cases h2
  · rw [List.cons_append, qualifierAltBased]
    rw [qualifierAltBased] at h1
    split
    · rename_i hc
      rw [if_pos hc] at h1
      -- show the `based` literal cannot match after the class character
      have hplain : ∃ y0 ys, ((c :: r1).dropWhile isPySpace) = y0 :: ys ∧
          pyCharLower y0 = 'l' ∧ 6 ≤ ((c :: r1).dropWhile isPySpace).length := by
        rw [orElse_eq_some_iff] at h2
        rcases h2 with h2 | ⟨-, h2⟩
        · rw [qualifierAltPlain, Option.map_eq_some'] at h2
          obtain ⟨tail, htail, heq⟩ := h2
          injection heq with hq0 htail0
          obtain ⟨⟨y0, ys, hy, hly⟩, hlen⟩ := parenTailAfterLimit_some htail
          exact ⟨y0, ys, hy, hly, by omega⟩
        · obtain ⟨hrest, -, -⟩ := qualifierAltGiveback_some h2
          exfalso
          -- rest starts with `)` which is not in the `[- ]` class
          injection hrest with hc0 hr0
          subst hc0
          rcases hc with hc | hc <;> exact absurd hc (by decide)
      obtain ⟨y0, ys, hy, hly, hylen⟩ := hplain
      rcases hc with hc | hc
      · -- class character `-`: the whitespace skip keeps the head `-`,
        -- which cannot open the `limit` literal
        exfalso
        subst hc
        rw [List.dropWhile_cons, if_neg (by decide)] at hy
        injection hy with hy0 hy1
        subst hy0
        exact absurd hly (by decide)
      · -- class character space: `based` must fail on the tail, with or
        -- without appended text
        subst hc
        split at h1
        · rename_i r2 hr2
          -- `based` matched on the source side: then the text after the
          -- space starts with `b`, contradicting the `l` head
          exfalso
          obtain ⟨b0, bs, hb, hlb⟩ := ciPrefixDrop_cons_head hr2
          rw [List.dropWhile_cons, if_pos (by decide)] at hy
          rw [hb] at hy
          have hb0 : ¬ isPySpace b0 = true := by
            intro hsp
            rw [pyCharLower_of_isPySpace hsp] at hlb
            subst hlb
            exact absurd hsp (by decide)
          rw [List.dropWhile_cons, if_neg hb0] at hy
          injection hy with hy0 hy1
          subst hy0
          rw [hly] at hlb
          exact absurd hlb (by decide)
        · rename_i hr2
          have hlen5 : ("based".data : List Char).length ≤ r1.length := by
            have h6 : 6 ≤ (r1.dropWhile isPySpace).length := by
              rw [List.dropWhile_cons, if_pos (by decide)] at hy
              calc (6 : ℕ) ≤ ((' ' :: r1).dropWhile isPySpace).length := hylen
                _ = (r1.dropWhile isPySpace).length := by
                    rw [List.dropWhile_cons, if_pos (by decide)]
            have := length_dropWhile_le isPySpace r1
            have h5 : ("based".data : List Char).length = 5 := rfl
            rw [h5]
            omega
          rw [ciPrefixDrop_none_append j hr2 hlen5]
    · rfl

theorem qualifierAltPlain_none_append {w rest q : List Char} (j : List Char)
    (h2 : qualifierAltGiveback w rest = some (q, [])) :
    qualifierAltPlain w (rest ++ j) = none := by
  obtain ⟨hrest, -, -⟩ := qualifierAltGiveback_some h2
  subst hrest
  rw [List.cons_append, List.nil_append, qualifierAltPlain]
  rw [List.dropWhile_cons, if_neg (by decide)]
  rw [parenTailAfterLimit, ciPrefixDrop_head_mismatch (by decide)]
  rfl

theorem qualifierAltBased_none_of_giveback {w rest q : List Char} (j : List Char)
    (h2 : qualifierAltGiveback w rest = some (q, [])) :
    qualifierAltBased w (rest ++ j) = none := by
  obtain ⟨hrest, -, -⟩ := qualifierAltGiveback_some h2
  subst hrest
  rw [List.cons_append, List.nil_append, qualifierAltBased]
  rw [if_neg (by rintro (h | h) <;> cases h)]

theorem qualifierAlts_append {w rest q : List Char} (j : List Char)
    (h : qualifierAlts w rest = some (q, [])) :
    qualifierAlts w (rest ++ j) = some (q, j) := by
  rw [qualifierAlts] at h ⊢
  rw [orElse_eq_some_iff] at h
  rcases h with h | ⟨hn1, h⟩
  · rw [qualifierAltBased_append j h]
    rfl
  · rw [orElse_eq_some_iff] at h
    rcases h with h | ⟨hn2, h⟩
    · rw [qualifierAltBased_none_append j hn1 (by rw [orElse_eq_some_iff]; exact Or.inl h),
          qualifierAltPlain_append j h]
      rfl
    · rw [qualifierAltBased_none_of_giveback j h, qualifierAltPlain_none_append j h,
          qualifierAltGiveback_append j h]
      rfl

theorem qualifierAlts_rest_ne_nil {w rest q tail : List Char}
    (h : qualifierAlts w rest = some (q, tail)) : rest ≠ [] := by
  intro he
  subst he
  rw [qualifierAlts] at h
  rw [orElse_eq_some_iff] at h
  rcases h with h | ⟨-, h⟩
  · cases h
  · rw [orElse_eq_some_iff] at h
    rcases h with h | ⟨-, h⟩
    · rw [qualifierAltPlain, Option.map_eq_some'] at h
      obtain ⟨tail', htail, -⟩ := h
      obtain ⟨⟨c, cs, hy, -⟩, -⟩ := parenTailAfterLimit_some htail
      cases hy
    · cases h

theorem qualifierMatch_append {s3 w : List Char} (j : List Char)
    (h : qualifierMatch s3 = some (w, [])) :
    qualifierMatch (s3 ++ j) = some (w, j) := by
  rw [qualifierMatch] at h
  split at h
  · cases h
  · rename_i hw
    have hrest : s3.dropWhile isWordChar ≠ [] := by
      have := qualifierAlts_rest_ne_nil h
      rwa [drop_length_takeWhile] at this
    have htw : (s3 ++ j).takeWhile isWordChar = s3.takeWhile isWordChar :=
      takeWhile_append_left _ _ _ hrest
    rw [qualifierMatch, if_neg (by rw [htw]; exact hw), htw]
    have hdrop : (s3 ++ j).drop (s3.takeWhile isWordChar).length =
        s3.drop (s3.takeWhile isWordChar).length ++ j := by
      rw [drop_length_takeWhile,
          show (s3.takeWhile isWordChar).length = ((s3 ++ j).takeWhile isWordChar).length from
            by rw [htw],
          drop_length_takeWhile]
      exact dropWhile_append_left _ _ _ hrest
    rw [hdrop]
    exact qualifierAlts_append j h

theorem volumeLimitDigits_append {s1 : List Char} {n : ℤ} {t : List Char} (j : List Char)
    (h : volumeLimitDigits s1 = some (n, t, [])) :
    volumeLimitDigits (s1 ++ j) = some (n, t, j) := by
  rw [volumeLimitDigits] at h
  split at h
  · cases h
  · rename_i hds
    split at h
    · rename_i s3 heq
      rw [Option.map_eq_some'] at h
      obtain ⟨⟨wq, wtail⟩, hq, heq2⟩ := h
      injection heq2 with hn heq3
      injection heq3 with ht htail
      have hX : s1.dropWhile Char.isDigit ≠ [] := by
        intro he
        rw [drop_length_takeWhile, he] at heq
        cases heq
      have hXw : (s1.drop (s1.takeWhile Char.isDigit).length).dropWhile isPySpace ≠ [] := by
        rw [heq]
        intro he
        cases he
      have htw : (s1 ++ j).takeWhile Char.isDigit = s1.takeWhile Char.isDigit :=
        takeWhile_append_left _ _ _ hX
      rw [volumeLimitDigits, if_neg (by rw [htw]; exact hds), htw]
      have hdrop : (s1 ++ j).drop (s1.takeWhile Char.isDigit).length =
          s1.drop (s1.takeWhile Char.isDigit).length ++ j := by
        rw [drop_length_takeWhile,
            show (s1.takeWhile Char.isDigit).length =
              ((s1 ++ j).takeWhile Char.isDigit).length from by rw [htw],
            drop_length_takeWhile]
        exact dropWhile_append_left _ _ _ hX
      rw [hdrop, dropWhile_append_left _ _ _ (by rw [drop_length_takeWhile]; rwa [drop_length_takeWhile] at hXw)]
      rw [heq]
      rw [List.cons_append]
      have htail0 : wtail = [] := htail
      subst htail0
      show (qualifierMatch (s3 ++ j)).map
          (fun wt => ((natOfDigits (s1.takeWhile Char.isDigit) : ℤ), pyLower wt.1, wt.2)) =
        some (n, t, j)
      rw [qualifierMatch_append j hq]
      have hn0 : (natOfDigits (s1.takeWhile Char.isDigit) : ℤ) = n := hn
      have ht0 : pyLower wq = t := ht
      simp [hn0, ht0]
    · cases h

theorem volumeLimitDigits_head_digit {s1 : List Char} {r : ℤ × List Char × List Char}
    (h : volumeLimitDigits s1 = some r) :
    ∃ c cs, s1 = c :: cs ∧ c.isDigit = true := by
  rw [volumeLimitDigits] at h
  split at h
  · cases h
  · rename_i hds
    exact takeWhile_ne_nil_head hds

theorem volumeLimitMatch_append {s : List Char} {n : ℤ} {t : List Char} (j : List Char)
    (h : volumeLimitMatch s = some (n, t, [])) :
    volumeLimitMatch (s ++ j) = some (n, t, j) := by
  rw [volumeLimitMatch] at h
  split at h
  · rename_i r hr
    split at h
    · rename_i hws
      obtain ⟨c, cs, hrc, hcws⟩ := takeWhile_ne_nil_head hws
      have hrd : r.dropWhile isPySpace ≠ [] := by
        obtain ⟨c1, cs1, h1, -⟩ := volumeLimitDigits_head_digit h
        intro he
        rw [h1] at he
        cases he
      rw [volumeLimitMatch, ciPrefixDrop_append j hr]
      show (if (r ++ j).takeWhile isPySpace ≠ [] then
            volumeLimitDigits ((r ++ j).dropWhile isPySpace)
          else volumeLimitDigits (s ++ j)) = some (n, t, j)
      rw [if_pos (by
        rw [hrc, List.cons_append, List.takeWhile_cons, if_pos hcws]
        intro he
        cases he)]
      rw [dropWhile_append_left _ _ _ hrd]
      exact volumeLimitDigits_append j h
    · -- the prefix matched but without trailing whitespace: then the string
      -- both starts with `u`/`U` and must start with a digit — impossible
      exfalso
      obtain ⟨c, cs, hs, hcu⟩ := ciPrefixDrop_cons_head hr
      obtain ⟨c1, cs1, hs1, hd1⟩ := volumeLimitDigits_head_digit h
      rw [hs] at hs1
      injection hs1 with hc1 hcs1
      rw [← hc1] at hd1
      rw [pyCharLower_of_isDigit hd1] at hcu
      rw [hcu] at hd1
      exact absurd hd1 (by decide)
  · rename_i hr
    obtain ⟨c, cs, hs, hd⟩ := volumeLimitDigits_head_digit h
    subst hs
    rw [volumeLimitMatch, List.cons_append,
        ciPrefixDrop_head_mismatch (by
          rw [pyCharLower_of_isDigit hd]
          intro he
          rw [he] at hd
          exact absurd hd (by decide))]
    exact volumeLimitDigits_append j h

/-! # C6 — volume-limit coercion: the claim -/

/-- Claim C6 as stated is false: `re.match` anchors the volume-limit pattern
at the start only, so a string that merely *begins* with the pattern — here
with trailing text after the closing parenthesis — is still coerced to a
structured value instead of being returned unchanged. -/
theorem C6_counterexample :
    parse_volume_limit "Up to 27 (Shared limit) blah".data = .spec 27 "shared".data ∧
    volumeLimitExactShape "Up to 27 (Shared limit) blah".data = false := by
  exact ⟨by decide, by decide⟩

/-- Amended C6: `parse_volume_limit` returns a structured value exactly for
strings with a *prefix* of the claimed shape (the match is anchored at the
start but not at the end, so trailing text is permitted); strings without
such a prefix are returned unchanged, and the function is total.  The last
conjunct is the anchoring property itself: any full match stays a match —
with the same captures — after arbitrary text is appended. -/
theorem C6_parse_volume_limit :
    parse_volume_limit "Up to 27 (Shared limit)".data = .spec 27 "shared".data ∧
    parse_volume_limit "Varies".data = .str "Varies".data ∧
    parse_volume_limit "27 (Shared limit), see note 3".data = .spec 27 "shared".data ∧
    (∀ s, volumeLimitMatch s = none → parse_volume_limit s = .str s) ∧
    (∀ s n t r, volumeLimitMatch s = some (n, t, r) → parse_volume_limit s = .spec n t) ∧
    (∀ s, volumeLimitExactShape s = true → ∃ n t, parse_volume_limit s = .spec n t) ∧
    (∀ s n t, volumeLimitMatch s = some (n, t, []) →
        ∀ j, parse_volume_limit (s ++ j) = .spec n t) := by
  refine ⟨by decide, by decide, by decide, ?_, ?_, ?_, ?_⟩
  · intro s h; simp [parse_volume_limit, h]
  · intro s n t r h; simp [parse_volume_limit, h]
  · intro s h
    rcases hm : volumeLimitMatch s with _ | ⟨n, t, r⟩
    · rw [volumeLimitExactShape, hm] at h; cases h
    · exact ⟨n, t, by simp [parse_volume_limit, hm]⟩
  · intro s n t h j
    simp [parse_volume_limit, volumeLimitMatch_append j h]

/-- Witness for `C6_parse_volume_limit` at concrete inputs. -/
theorem C6_parse_volume_limit_witness :
    (volumeLimitMatch "Varies by volume".data = none ∧
     parse_volume_limit "Varies by volume".data = .str "Varies by volume".data) ∧
    (volumeLimitMatch "128 (Dedicated limit)".data =
       some (128, "dedicated".data, []) ∧
     parse_volume_limit "128 (Dedicated limit)".data = .spec 128 "dedicated".data) ∧
    (volumeLimitExactShape "Up to 27 (Shared limit)".data = true ∧
     ∃ n t, parse_volume_limit "Up to 27 (Shared limit)".data = .spec n t) ∧
    (volumeLimitMatch "Up to 27 (Shared limit)".data = some (27, "shared".data, []) ∧
     parse_volume_limit ("Up to 27 (Shared limit)".data ++ ", see note 3".data) =
       .spec 27 "shared".data) := by
  refine ⟨⟨by decide, C6_parse_volume_limit.2.2.2.1 _ (by decide)⟩,
          ⟨by decide, C6_parse_volume_limit.2.2.2.2.1 _ 128 "dedicated".data [] (by decide)⟩,
          ⟨by decide, C6_parse_volume_limit.2.2.2.2.2.1 _ (by decide)⟩,
          ⟨by decide, C6_parse_volume_limit.2.2.2.2.2.2 _ 27 "shared".data (by decide) _⟩⟩

/-! # C4 — family derivation -/

theorem splitOnChar_head (sep : Char) (l : List Char) :
    ∃ t, splitOnChar sep l = (l.takeWhile (fun c => c ≠ sep)) :: t := by
  induction l with
  | nil => exact ⟨[], rfl⟩
  | cons c cs ih =>
      obtain ⟨t, ht⟩ := ih
      by_cases h : c = sep
      · refine ⟨splitOnChar sep cs, ?_⟩
        simp [splitOnChar, h, List.takeWhile_cons]
      · refine ⟨t, ?_⟩
        simp [splitOnChar, h, ht, List.takeWhile_cons]

/-- Claim C4: for every entity key the builder keeps, the derived family is
the segment before the first `.` (after stripping the `db.` / `cache.`
service prefix), first character uppercased; it is non-empty whenever the
derivation returns at all, and the derivation is a pure function (so two
applications to the same key agree definitionally). -/
theorem C4_family_extraction :
    (∀ k f, extract_family_from_instance_type k = some f →
        f ≠ [] ∧ f = upperFirstSegment k ∧
        extract_family_from_instance_type k = extract_family_from_instance_type k) ∧
    (∀ k f, "db.".data.isPrefixOf k = true → extract_rds_family k = some f →
        f ≠ [] ∧ f = upperFirstSegment (k.drop 3)) ∧
    (∀ k f, "cache.".data.isPrefixOf k = true → extract_elasticache_family k = some f →
        f ≠ [] ∧ f = upperFirstSegment (k.drop 6)) := by
  refine ⟨?_, ?_, ?_⟩
  · intro k f h
    obtain ⟨t, ht⟩ := splitOnChar_head '.' k
    rw [extract_family_from_instance_type, ht] at h
    rcases hseg : k.takeWhile (fun c => c ≠ '.') with _ | ⟨c, rest⟩
    · rw [hseg] at h; cases h
    · rw [hseg] at h
      simp only [Option.some_inj] at h
      subst h
      exact ⟨by simp, by rw [upperFirstSegment, hseg], rfl⟩
  · intro k f hpre h
    rw [extract_rds_family, if_pos hpre] at h
    obtain ⟨t, ht⟩ := splitOnChar_head '.' (k.drop 3)
    rw [ht] at h
    rcases hseg : (k.drop 3).takeWhile (fun c => c ≠ '.') with _ | ⟨c, rest⟩
    · rw [hseg] at h; cases h
    · rw [hseg] at h
      simp only [Option.some_inj] at h
      subst h
      exact ⟨by simp, by rw [upperFirstSegment, hseg]⟩
  · intro k f hpre h
    rw [extract_elasticache_family, if_pos hpre] at h
    obtain ⟨t, ht⟩ := splitOnChar_head '.' (k.drop 6)
    rw [ht] at h
    rcases hseg : (k.drop 6).takeWhile (fun c => c ≠ '.') with _ | ⟨c, rest⟩
    · rw [hseg] at h; cases h
    · rw [hseg] at h
      simp only [Option.some_inj] at h
      subst h
      exact ⟨by simp, by rw [upperFirstSegment, hseg]⟩

/-- Witness for `C4_family_extraction` at concrete keys of all three
domains. -/
theorem C4_family_extraction_witness :
    (extract_family_from_instance_type "m5.large".data = some "M5".data ∧
     "M5".data ≠ [] ∧ "M5".data = upperFirstSegment "m5.large".data) ∧
    ("db.".data.isPrefixOf "db.r6g.xlarge".data = true ∧
     extract_rds_family "db.r6g.xlarge".data = some "R6g".data ∧
     "R6g".data ≠ [] ∧ "R6g".data = upperFirstSegment ("db.r6g.xlarge".data.drop 3)) ∧
    ("cache.".data.isPrefixOf "cache.t4g.micro".data = true ∧
     extract_elasticache_family "cache.t4g.micro".data = some "T4g".data ∧
     "T4g".data ≠ [] ∧ "T4g".data = upperFirstSegment ("cache.t4g.micro".data.drop 6)) := by
  have h1 := C4_family_extraction.1 "m5.large".data "M5".data (by decide)
  have h2 := C4_family_extraction.2.1 "db.r6g.xlarge".data "R6g".data (by decide) (by decide)
  have h3 := C4_family_extraction.2.2 "cache.t4g.micro".data "T4g".data (by decide) (by decide)
  exact ⟨⟨by decide, h1.1, h1.2.1⟩, ⟨by decide, by decide, h2.1, h2.2⟩,
         ⟨by decide, by decide, h3.1, h3.2⟩⟩

/-! # C9 — footnote stripping -/

theorem digitsTail_last {t : List Char} (h : digitsTail t = true) :
    ∃ c, t.getLast? = some c ∧ c.isDigit = true := by
  induction t with
  | nil => cases h
  | cons x xs ih =>
      rcases xs with _ | ⟨y, ys⟩
      · refine ⟨x, rfl, ?_⟩
        simpa [digitsTail] using h
      · have h' : digitsTail (y :: ys) = true := by
          simp only [digitsTail, List.all_cons, List.isEmpty_cons] at h ⊢
          simp at h ⊢
          exact h.2
        obtain ⟨c, hc, hd⟩ := ih h'
        exact ⟨c, by rw [List.getLast?_cons_cons, hc], hd⟩

theorem last_digit_of_drop {t : List Char} {k : ℕ} (h : digitsTail (t.drop k) = true) :
    ∃ c, t.getLast? = some c ∧ c.isDigit = true := by
  obtain ⟨c, hc, hd⟩ := digitsTail_last h
  have hne : t.drop k ≠ [] := by
    intro he; rw [he] at h; cases h
  refine ⟨c, ?_, hd⟩
  calc t.getLast? = (t.take k ++ t.drop k).getLast? := by rw [List.take_append_drop]
    _ = (t.drop k).getLast? := List.getLast?_append_of_ne_nil _ hne
    _ = some c := hc

theorem wordAlt_some {w t g : List Char} (h : wordAlt w t = some g) :
    g = w ∧ digitsTail (t.drop w.length) = true := by
  rw [wordAlt] at h
  split at h
  · rename_i hcond
    simp only [Bool.and_eq_true] at hcond
    cases h
    exact ⟨rfl, hcond.2⟩
  · cases h

theorem xlargeAlt_some {t g : List Char} (h : xlargeAlt t = some g) :
    g = (t.takeWhile Char.isDigit) ++ "xlarge".data ∧
    digitsTail (t.drop ((t.takeWhile Char.isDigit).length + 6)) = true := by
  rw [xlargeAlt] at h
  split at h
  · rename_i hcond
    simp only [Bool.and_eq_true] at hcond
    cases h
    refine ⟨rfl, ?_⟩
    have := hcond.2
    rwa [List.drop_drop] at this
  · cases h

theorem metalAlt_some {t g : List Char} (h : metalAlt t = some g) :
    (∃ c, g.getLast? = some c ∧ c.isDigit = false) ∧
    (∃ c, t.getLast? = some c ∧ c.isDigit = true) := by
  rw [metalAlt] at h
  split at h
  case isFalse => cases h
  case isTrue hpre =>
    rw [orElse_eq_some_iff] at h
    rcases h with h | ⟨-, h⟩
    · -- the greedy `-\d+xl` variant of the optional infix
      split at h
      case h_2 => cases h
      case h_1 u1 heq =>
        split at h
        case isFalse => cases h
        case isTrue hcond =>
          simp only [Bool.and_eq_true] at hcond
          have hg := (Option.some_inj.mp h).symm
          have hxl : ("xl".data : List Char) ≠ [] := by decide
          constructor
          · refine ⟨'l', ?_, by decide⟩
            rw [hg, List.getLast?_append_of_ne_nil _ hxl]
            decide
          · have hdt := hcond.2
            have hu1 : u1 = t.drop 6 := by
              have h6 : t.drop 6 = ('-' :: u1).drop 1 := by
                rw [← heq, List.drop_drop]
              simpa using h6.symm
            rw [List.drop_drop, hu1, List.drop_drop] at hdt
            exact last_digit_of_drop hdt
    · -- the plain `metal` variant
      split at h
      case isFalse => cases h
      case isTrue hd =>
        have hg := (Option.some_inj.mp h).symm
        constructor
        · refine ⟨'l', ?_, by decide⟩
          rw [hg]
          decide
        · exact last_digit_of_drop hd

theorem altMatch_some {t g : List Char} (h : altMatch t = some g) :
    (∃ c, g.getLast? = some c ∧ c.isDigit = false) ∧
    (∃ c, t.getLast? = some c ∧ c.isDigit = true) := by
  rw [altMatch] at h
  rw [orElse_eq_some_iff] at h
  rcases h with h | ⟨-, h⟩
  · obtain ⟨hg, hdt⟩ := xlargeAlt_some h
    refine ⟨⟨'e', ?_, by decide⟩, last_digit_of_drop hdt⟩
    rw [hg, List.getLast?_append_of_ne_nil _ (by decide : ("xlarge".data : List Char) ≠ [])]
    rfl
  rw [orElse_eq_some_iff] at h
  rcases h with h | ⟨-, h⟩
  · exact metalAlt_some h
  rw [orElse_eq_some_iff] at h
  rcases h with h | ⟨-, h⟩
  · obtain ⟨hg, hdt⟩ := wordAlt_some h
    exact ⟨⟨'o', by rw [hg]; decide, by decide⟩, last_digit_of_drop hdt⟩
  rw [orElse_eq_some_iff] at h
  rcases h with h | ⟨-, h⟩
  · obtain ⟨hg, hdt⟩ := wordAlt_some h
    exact ⟨⟨'o', by rw [hg]; decide, by decide⟩, last_digit_of_drop hdt⟩
  rw [orElse_eq_some_iff] at h
  rcases h with h | ⟨-, h⟩
  · obtain ⟨hg, hdt⟩ := wordAlt_some h
    exact ⟨⟨'l', by rw [hg]; decide, by decide⟩, last_digit_of_drop hdt⟩
  rw [orElse_eq_some_iff] at h
  rcases h with h | ⟨-, h⟩
  · obtain ⟨hg, hdt⟩ := wordAlt_some h
    exact ⟨⟨'m', by rw [hg]; decide, by decide⟩, last_digit_of_drop hdt⟩
  · obtain ⟨hg, hdt⟩ := wordAlt_some h
    exact ⟨⟨'e', by rw [hg]; decide, by decide⟩, last_digit_of_drop hdt⟩

theorem findSuffixMatch_some {s pre g : List Char}
    (h : findSuffixMatch s = some (pre, g)) :
    (∃ t, altMatch t = some g) ∧ (∃ c, s.getLast? = some c ∧ c.isDigit = true) := by
  induction s generalizing pre with
  | nil => cases h
  | cons x xs ih =>
      rw [findSuffixMatch] at h
      rcases ha : altMatch (x :: xs) with _ | g' <;> rw [ha] at h
      · rw [Option.map_eq_some'] at h
        obtain ⟨⟨p', g''⟩, hfs, heq⟩ := h
        injection heq with h1 h2
        subst h2
        obtain ⟨⟨t, halt⟩, ⟨c, hc, hd⟩⟩ := ih hfs
        rcases xs with _ | ⟨y, ys⟩
        · cases hfs
        · exact ⟨⟨t, halt⟩, ⟨c, by rw [List.getLast?_cons_cons, hc], hd⟩⟩
      · injection h with h'
        injection h' with h1 h2
        subst h2
        exact ⟨⟨x :: xs, ha⟩, (altMatch_some ha).2⟩

theorem findSuffixMatch_eq_none {s : List Char}
    (h : ∀ c, s.getLast? = some c → c.isDigit = false) : findSuffixMatch s = none := by
  rcases hf : findSuffixMatch s with _ | ⟨pre, g⟩
  · rfl
  · obtain ⟨-, c, hc, hd⟩ := findSuffixMatch_some hf
    rw [h c hc] at hd
    cases hd

/-- Claim C9: `stripFootnote` removes a trailing numeric footnote glued to a
size-suffix word (`16xlarge1` yields `16xlarge`), leaves unmarked tokens
unchanged (`large` yields `large`), and is idempotent on every input: a
replacement always ends in a letter of the captured suffix word, so the
result can never end in the digit a second match would require. -/
theorem C9_clean_instance_type :
    clean_instance_type "16xlarge1".data = "16xlarge".data ∧
    clean_instance_type "large".data = "large".data ∧
    ∀ s, clean_instance_type (clean_instance_type s) = clean_instance_type s := by
  refine ⟨by decide, by decide, ?_⟩
  intro s
  rcases hf : findSuffixMatch s with _ | ⟨pre, g⟩
  · simp [clean_instance_type, hf]
  · obtain ⟨⟨t, halt⟩, -⟩ := findSuffixMatch_some hf
    obtain ⟨⟨c, hgc, hgd⟩, -⟩ := altMatch_some halt
    have hg : g ≠ [] := by
      intro he; rw [he] at hgc; cases hgc
    have hnone : findSuffixMatch (pre ++ g) = none := by
      refine findSuffixMatch_eq_none ?_
      intro c' hc'
      rw [List.getLast?_append_of_ne_nil _ hg, hgc] at hc'
      rw [← Option.some_inj.mp hc']
      exact hgd
    simp [clean_instance_type, hf, hnone]

/-! # C7 — header-to-snake-case conversion -/

theorem collapseRunsWith_head? (p : Char → Bool) (r : Char) (u : List Char) :
    (collapseRunsWith p r u).head? =
      (u.map (fun c => if p c then r else c)).head? := by
  induction u with
  | nil => rfl
  | cons c cs ih =>
      by_cases hc : p c = true
      · rcases cs with _ | ⟨c', cs'⟩
        · simp [collapseRunsWith, hc]
        · by_cases hc' : p c' = true
          · rw [show collapseRunsWith p r (c :: c' :: cs') =
                  collapseRunsWith p r (c' :: cs') from by simp [collapseRunsWith, hc, hc']]
            rw [ih]
            simp [hc, hc']
          · simp [collapseRunsWith, hc, hc']
      · simp [collapseRunsWith, hc]

theorem collapse_cons_congr (x : Char) {A B : List Char}
    (hhead : A.head? = B.head?)
    (h : collapseRunsWith (fun c => c = '_') '_' A =
         collapseRunsWith (fun c => c = '_') '_' B) :
    collapseRunsWith (fun c => c = '_') '_' (x :: A) =
    collapseRunsWith (fun c => c = '_') '_' (x :: B) := by
  by_cases hx : x = '_'
  · rcases A with _ | ⟨a, A'⟩ <;> rcases B with _ | ⟨b, B'⟩
    · rfl
    · simp at hhead
    · simp at hhead
    · have hab : a = b := by
        simpa using hhead
      subst hab
      by_cases ha : a = '_'
      · simpa [collapseRunsWith, hx, ha] using h
      · simpa [collapseRunsWith, hx, ha] using h
  · rcases A with _ | ⟨a, A'⟩ <;> rcases B with _ | ⟨b, B'⟩
    · rfl
    · simp at hhead
    · simp at hhead
    · simpa [collapseRunsWith, hx] using h

theorem collapse_underscore_pair (X : List Char) :
    collapseRunsWith (fun c => c = '_') '_' ('_' :: '_' :: X) =
    collapseRunsWith (fun c => c = '_') '_' ('_' :: X) := by
  simp [collapseRunsWith]

theorem collapse_lower_runs (u : List Char) :
    collapseRunsWith (fun c => c = '_') '_'
      (pyLower (collapseRunsWith isWsOrDash '_' u)) =
    collapseRunsWith (fun c => c = '_') '_'
      (pyLower (u.map (fun c => if isWsOrDash c then '_' else c))) := by
  induction u with
  | nil => rfl
  | cons c cs ih =>
      by_cases hc : isWsOrDash c = true
      · rcases cs with _ | ⟨c', cs'⟩
        · simp [collapseRunsWith, hc, pyLower]
        · by_cases hc' : isWsOrDash c' = true
          · rw [show collapseRunsWith isWsOrDash '_' (c :: c' :: cs') =
                  collapseRunsWith isWsOrDash '_' (c' :: cs') from by
                simp [collapseRunsWith, hc, hc']]
            rw [ih]
            rw [show (c :: c' :: cs').map (fun c => if isWsOrDash c then '_' else c) =
                  '_' :: '_' :: cs'.map (fun c => if isWsOrDash c then '_' else c) from by
                simp [hc, hc']]
            rw [show (c' :: cs').map (fun c => if isWsOrDash c then '_' else c) =
                  '_' :: cs'.map (fun c => if isWsOrDash c then '_' else c) from by
                simp [hc']]
            rw [show pyLower ('_' :: '_' :: cs'.map (fun c => if isWsOrDash c then '_' else c)) =
                  '_' :: '_' :: pyLower (cs'.map (fun c => if isWsOrDash c then '_' else c)) from by
                simp [pyLower]; decide]
            rw [show pyLower ('_' :: cs'.map (fun c => if isWsOrDash c then '_' else c)) =
                  '_' :: pyLower (cs'.map (fun c => if isWsOrDash c then '_' else c)) from by
                simp [pyLower]; decide]
            exact collapse_underscore_pair _
          · rw [show collapseRunsWith isWsOrDash '_' (c :: c' :: cs') =
                  '_' :: collapseRunsWith isWsOrDash '_' (c' :: cs') from by
                simp [collapseRunsWith, hc, hc']]
            rw [show (c :: c' :: cs').map (fun c => if isWsOrDash c then '_' else c) =
                  '_' :: (c' :: cs').map (fun c => if isWsOrDash c then '_' else c) from by
                simp [hc]]
            rw [show pyLower ('_' :: collapseRunsWith isWsOrDash '_' (c' :: cs')) =
                  '_' :: pyLower (collapseRunsWith isWsOrDash '_' (c' :: cs')) from by
                simp [pyLower]; decide]
            rw [show pyLower ('_' :: (c' :: cs').map (fun c => if isWsOrDash c then '_' else c)) =
                  '_' :: pyLower ((c' :: cs').map (fun c => if isWsOrDash c then '_' else c)) from by
                simp [pyLower]; decide]
            refine collapse_cons_congr '_' ?_ ih
            rw [pyLower, pyLower, List.head?_map, List.head?_map,
                collapseRunsWith_head? isWsOrDash '_' (c' :: cs')]
      · rw [show collapseRunsWith isWsOrDash '_' (c :: cs) =
              c :: collapseRunsWith isWsOrDash '_' cs from by
            rcases cs with _ | ⟨c', cs'⟩ <;> simp [collapseRunsWith, hc]]
        rw [show (c :: cs).map (fun c => if isWsOrDash c then '_' else c) =
              c :: cs.map (fun c => if isWsOrDash c then '_' else c) from by simp [hc]]
        rw [show pyLower (c :: collapseRunsWith isWsOrDash '_' cs) =
              pyCharLower c :: pyLower (collapseRunsWith isWsOrDash '_' cs) from rfl]
        rw [show pyLower (c :: cs.map (fun c => if isWsOrDash c then '_' else c)) =
              pyCharLower c :: pyLower (cs.map (fun c => if isWsOrDash c then '_' else c)) from rfl]
        refine collapse_cons_congr (pyCharLower c) ?_ ih
        rw [pyLower, pyLower, List.head?_map, List.head?_map,
            collapseRunsWith_head? isWsOrDash '_' cs]

theorem slash_ws_map_fusion (t : List Char) :
    (t.map (fun c => if c = '/' then '_' else c)).map
        (fun c => if isWsOrDash c then '_' else c) =
    t.map (fun c => if c = '/' ∨ isWsOrDash c then '_' else c) := by
  rw [List.map_map]
  apply List.map_congr_left
  intro c _
  by_cases h1 : c = '/'
  · subst h1
    simp [isWsOrDash, isPySpace]
  · by_cases h2 : isWsOrDash c = true <;> simp [h1, h2]

/-- Claim C7 as stated is false: `to_snake_case` *removes* `.` and the
parentheses (`re.sub(r"[().]", "", text)`) instead of replacing them with
underscores, so `a.b` becomes `ab`, not the `a_b` the claim's transformation
would produce. -/
theorem C7_counterexample :
    to_snake_case "a.b".data = "ab".data ∧
    normalizeKeyClaim "a.b".data = "a_b".data ∧
    to_snake_case "a.b".data ≠ normalizeKeyClaim "a.b".data := ⟨by decide, by decide, by decide⟩

/-- Amended C7: `normalizeKey` deletes `.` and parentheses, replaces slashes,
hyphens and whitespace with underscores, lowercases the rest, collapses
underscore runs, and strips leading/trailing underscores — proved by showing
the source's sequence of five substitutions equal to this single
left-to-right pass. -/
theorem C7_to_snake_case_amended (s : List Char) :
    to_snake_case s = normalizeKeyAmended s := by
  rw [to_snake_case, normalizeKeyAmended]
  congr 1
  rw [← slash_ws_map_fusion]
  exact collapse_lower_runs _

/-! # C8 — row filtering in the Table Extractor -/

theorem dictInsert_fresh {d : RawRow} {k : List Char} {v : PyVal}
    (h : ∀ p ∈ d, p.1 ≠ k) : dictInsert d k v = d ++ [(k, v)] := by
  rw [dictInsert, if_neg]
  simp only [List.any_eq_true, decide_eq_true_eq, not_exists]
  intro p hp
  exact h p hp.1 hp.2

theorem parseTableRowGo_keys (headers : List (List Char)) (hnd : headers.Nodup) :
    ∀ (cells : List (List Char)) (i : ℕ) (d : RawRow),
      i + cells.length ≤ headers.length →
      d.map Prod.fst = headers.take i →
      (parseTableRowGo headers i cells d).map Prod.fst = headers.take (i + cells.length) := by
  intro cells
  induction cells with
  | nil =>
      intro i d _ hd
      simpa using hd
  | cons cell rest ih =>
      intro i d hlen hd
      have hi : i < headers.length := by
        simp only [List.length_cons] at hlen; omega
      obtain ⟨h, hh⟩ : ∃ h, headers[i]? = some h := by
        rw [List.getElem?_eq_getElem hi]; exact ⟨_, rfl⟩
      have hmem : h ∈ headers.drop i := by
        rcases hdrop : headers.drop i with _ | ⟨x, xs⟩
        · exfalso
          have := congrArg List.length hdrop
          simp only [List.length_drop, List.length_nil] at this
          omega
        · have hx : headers[i]? = some x := by
            rw [← List.head?_drop, hdrop]; rfl
          rw [hh] at hx
          rw [Option.some_inj.mp hx]
          exact List.mem_cons_self x xs
      have hnotin : h ∉ headers.take i := by
        have hnd2 : (headers.take i ++ headers.drop i).Nodup := by
          rw [List.take_append_drop]; exact hnd
        exact fun hin => (List.nodup_append.mp hnd2).2.2 hin hmem
      have hfresh : ∀ p ∈ d, p.1 ≠ h := by
        intro p hp he
        apply hnotin
        rw [← hd, ← he]
        exact List.mem_map_of_mem _ hp
      rw [parseTableRowGo, hh]
      rw [dictInsert_fresh hfresh]
      have hstep : (d ++ [(h, cellValue (some h) cell)]).map Prod.fst = headers.take (i + 1) := by
        rw [List.map_append, hd, List.take_succ, hh]
        rfl
      have hrec := ih (i + 1) _ (by simp only [List.length_cons] at hlen; omega) hstep
      rw [hrec]
      congr 1
      simp only [List.length_cons]
      omega

theorem parseTableRow_length {headers cells : List (List Char)} (hnd : headers.Nodup)
    (hlen : cells.length ≤ headers.length) :
    (parseTableRow headers cells).length = cells.length := by
  have hkeys := parseTableRowGo_keys headers hnd cells 0 [] (by omega) (by simp)
  have h2 := congrArg List.length hkeys
  rw [List.length_map, List.length_take] at h2
  have h3 : min (0 + cells.length) headers.length = cells.length := by omega
  rw [h3] at h2
  rw [parseTableRow]
  exact h2

theorem parseTableRow_single (headers : List (List Char)) (c : List Char) :
    (parseTableRow headers [c]).length = 1 := by
  rcases hh : headers[0]? with _ | h0 <;>
    simp [parseTableRow, parseTableRowGo, hh, dictInsert]

/-- Claim C8 as stated is false: the row filter `len(row_data) > 1` counts
*entries of the mapping*, not populated fields.  A two-cell row whose second
cell is empty produces a two-entry RawRow and is kept, although only one of
its fields is populated. -/
theorem C8_counterexample :
    parse_table ⟨["a".data, "b".data], [["x".data, [] ]]⟩ =
      [[("a".data, PyVal.str "x".data), ("b".data, PyVal.str [])]] ∧
    countPopulated [("a".data, PyVal.str "x".data), ("b".data, PyVal.str [])] = 1 := by
  exact ⟨by decide, by decide⟩

/-- Amended C8: a body row is discarded exactly when it has no cells or fewer
than two *cells* (for tables whose normalized headers are distinct and cover
the cells); whether a cell's value is empty plays no role.  A row with a
single cell is always discarded, under no hypotheses at all. -/
theorem C8_row_filter (hts cells : List (List Char))
    (hnd : (hts.map (fun th => to_snake_case (clean_text th))).Nodup)
    (hlen : cells.length ≤ hts.length) :
    (parse_table ⟨hts, [cells]⟩ ≠ [] ↔ 2 ≤ cells.length) ∧
    (∀ c : List Char, parse_table ⟨hts, [[c]]⟩ = []) := by
  constructor
  · rcases cells with _ | ⟨c0, cs⟩
    · simp [parse_table]
    · rcases cs with _ | ⟨c1, cs'⟩
      · rcases hrow : parseTableRow (hts.map (fun th => to_snake_case (clean_text th))) [c0]
          with _ | ⟨e, es⟩
        · simp [parse_table, hrow]
        · have h1 := parseTableRow_single (hts.map (fun th => to_snake_case (clean_text th))) c0
          rw [hrow] at h1
          simp only [List.length_cons, Nat.add_left_eq_self, List.length_eq_zero] at h1
          subst h1
          simp [parse_table, hrow]
      · have hlen' : (c0 :: c1 :: cs').length ≤
            (hts.map (fun th => to_snake_case (clean_text th))).length := by
          simpa using hlen
        have hrd : (parseTableRow (hts.map (fun th => to_snake_case (clean_text th)))
            (c0 :: c1 :: cs')).length = (c0 :: c1 :: cs').length :=
          parseTableRow_length hnd hlen'
        rcases hrow : parseTableRow (hts.map (fun th => to_snake_case (clean_text th)))
            (c0 :: c1 :: cs') with _ | ⟨e, es⟩
        · rw [hrow] at hrd; cases hrd
        · rw [hrow] at hrd
          have hes : es ≠ [] := by
            intro he
            subst he
            simp only [List.length_cons, List.length_nil] at hrd
            omega
          have hpt : parse_table ⟨hts, [c0 :: c1 :: cs']⟩ = [e :: es] := by
            simp [parse_table, hrow, hes]
          rw [hpt]
          constructor
          · intro _
            simp only [List.length_cons]
            omega
          · intro _
            simp
  · intro c
    rcases hrow : parseTableRow (hts.map (fun th => to_snake_case (clean_text th))) [c]
        with _ | ⟨e, es⟩
    · simp [parse_table, hrow]
    · have h1 := parseTableRow_single (hts.map (fun th => to_snake_case (clean_text th))) c
      rw [hrow] at h1
      simp only [List.length_cons, Nat.add_left_eq_self, List.length_eq_zero] at h1
      subst h1
      simp [parse_table, hrow]

/-- Witness for `C8_row_filter` at a concrete table. -/
theorem C8_row_filter_witness :
    ((["Instance type".data, "vCPUs".data] : List (List Char)).map
        (fun th => to_snake_case (clean_text th))).Nodup ∧
    (parse_table ⟨["Instance type".data, "vCPUs".data], [["m5.large".data, "2".data]]⟩ ≠ [] ↔
      2 ≤ (["m5.large".data, "2".data] : List (List Char)).length) := by
  refine ⟨by decide, ?_⟩
  exact (C8_row_filter ["Instance type".data, "vCPUs".data] ["m5.large".data, "2".data]
    (by decide) (by decide)).1

/-! # C10 — ElastiCache record builder -/

theorem processElastiCacheGo_spec :
    ∀ (raws : List ECacheRow) (acc : List (List Char × ElastiCacheNodeDetails)),
      (∀ raw ∈ raws, "cache.".data.isPrefixOf (rawGet raw "node_type".data []) = true →
          (buildElastiCacheNode (rawGet raw "node_type".data []) raw).isSome = true) →
      ∃ out, processElastiCacheGo raws acc = some out ∧
        (∀ k, (∃ p ∈ out, p.1 = k) ↔
          ((∃ p ∈ acc, p.1 = k) ∨
           ∃ raw ∈ raws, rawGet raw "node_type".data [] = k ∧
             "cache.".data.isPrefixOf k = true)) ∧
        (∀ k, (∃ p ∈ acc, p.1 = k) →
          out.find? (fun p => p.1 = k) = acc.find? (fun p => p.1 = k)) ∧
        (∀ k raw', "cache.".data.isPrefixOf k = true → ¬(∃ p ∈ acc, p.1 = k) →
          (raws.find? (fun raw => rawGet raw "node_type".data [] = k)) = some raw' →
          ∃ d, buildElastiCacheNode k raw' = some d ∧
            out.find? (fun p => p.1 = k) = some (k, d)) := by
  intro raws
  induction raws with
  | nil =>
      intro acc _
      refine ⟨acc, rfl, ?_, fun _ _ => rfl, ?_⟩
      · intro k
        constructor
        · exact Or.inl
        · rintro (h | ⟨r, hr, -⟩)
          · exact h
          · exact absurd hr (List.not_mem_nil r)
      · intro k raw' _ _ hfind
        cases hfind
  | cons raw rest ih =>
      intro acc H
      have Hrest : ∀ r ∈ rest, "cache.".data.isPrefixOf (rawGet r "node_type".data []) = true →
          (buildElastiCacheNode (rawGet r "node_type".data []) r).isSome = true :=
        fun r hr => H r (List.mem_cons_of_mem _ hr)
      by_cases hskip : rawGet raw "node_type".data [] = [] ∨
          ¬ "cache.".data.isPrefixOf (rawGet raw "node_type".data []) = true
      · -- row skipped: empty key or missing prefix
        obtain ⟨out, hgo, hmem, hacc, hfirst⟩ := ih acc Hrest
        have hgo' : processElastiCacheGo (raw :: rest) acc = some out := by
          rw [processElastiCacheGo, if_pos]
          · exact hgo
          · exact hskip
        have hrawk : ∀ k, "cache.".data.isPrefixOf k = true →
            rawGet raw "node_type".data [] ≠ k := by
          intro k hk he
          rcases hskip with h0 | h0
          · rw [h0] at he; rw [← he] at hk; cases hk
          · rw [he] at h0; exact h0 hk
        refine ⟨out, hgo', ?_, hacc, ?_⟩
        · intro k
          rw [hmem k]
          constructor
          · rintro (h | h)
            · exact Or.inl h
            · exact Or.inr (by
                obtain ⟨r, hr, hrk⟩ := h
                exact ⟨r, List.mem_cons_of_mem _ hr, hrk⟩)
          · rintro (h | h)
            · exact Or.inl h
            · obtain ⟨r, hr, hrk, hpk⟩ := h
              rcases List.mem_cons.mp hr with he | hr'
              · exact absurd hrk (he ▸ hrawk k hpk)
              · exact Or.inr ⟨r, hr', hrk, hpk⟩
        · intro k raw' hpk hnacc hfind
          rw [List.find?_cons_of_neg _ (by simpa using hrawk k hpk)] at hfind
          exact hfirst k raw' hpk hnacc hfind
      · push_neg at hskip
        obtain ⟨hne, hpre⟩ := hskip
        by_cases hdup : acc.any (fun p => p.1 = rawGet raw "node_type".data []) = true
        · -- duplicate of an already-seen node type
          obtain ⟨out, hgo, hmem, hacc, hfirst⟩ := ih acc Hrest
          have hgo' : processElastiCacheGo (raw :: rest) acc = some out := by
            rw [processElastiCacheGo, if_neg, if_pos hdup]
            · exact hgo
            · push_neg
              exact ⟨hne, hpre⟩
          have hin : ∃ p ∈ acc, p.1 = rawGet raw "node_type".data [] := by
            rw [List.any_eq_true] at hdup
            obtain ⟨p, hp, hpk⟩ := hdup
            exact ⟨p, hp, by simpa using hpk⟩
          refine ⟨out, hgo', ?_, hacc, ?_⟩
          · intro k
            rw [hmem k]
            constructor
            · rintro (h | h)
              · exact Or.inl h
              · exact Or.inr (by
                  obtain ⟨r, hr, hrk⟩ := h
                  exact ⟨r, List.mem_cons_of_mem _ hr, hrk⟩)
            · rintro (h | h)
              · exact Or.inl h
              · obtain ⟨r, hr, hrk, hpk⟩ := h
                rcases List.mem_cons.mp hr with he | hr'
                · subst he
                  exact Or.inl (hrk ▸ hin)
                · exact Or.inr ⟨r, hr', hrk, hpk⟩
          · intro k raw' hpk hnacc hfind
            have hkne : rawGet raw "node_type".data [] ≠ k := by
              intro he
              exact hnacc (he ▸ hin)
            rw [List.find?_cons_of_neg _ (by simpa using hkne)] at hfind
            exact hfirst k raw' hpk hnacc hfind
        · -- a fresh cache-prefixed node type: build and record it
          have hsome := H raw (List.mem_cons_self _ _) hpre
          obtain ⟨d, hd⟩ := Option.isSome_iff_exists.mp hsome
          obtain ⟨out, hgo, hmem, hacc, hfirst⟩ :=
            ih (acc ++ [(rawGet raw "node_type".data [], d)]) Hrest
          have hgo' : processElastiCacheGo (raw :: rest) acc = some out := by
            rw [processElastiCacheGo, if_neg, if_neg hdup, hd]
            · exact hgo
            · push_neg
              exact ⟨hne, hpre⟩
          have hnin : ¬ ∃ p ∈ acc, p.1 = rawGet raw "node_type".data [] := by
            rintro ⟨p, hp, hpk⟩
            exact hdup (List.any_eq_true.mpr ⟨p, hp, by simpa using hpk⟩)
          refine ⟨out, hgo', ?_, ?_, ?_⟩
          · intro k
            rw [hmem k]
            constructor
            · rintro (h | h)
              · simp only [List.mem_append, List.mem_singleton] at h
                obtain ⟨p, hp | hp, hpk⟩ := h
                · exact Or.inl ⟨p, hp, hpk⟩
                · subst hp
                  exact Or.inr ⟨raw, List.mem_cons_self _ _, hpk, hpk ▸ hpre⟩
              · obtain ⟨r, hr, hrk⟩ := h
                exact Or.inr ⟨r, List.mem_cons_of_mem _ hr, hrk⟩
            · rintro (h | h)
              · obtain ⟨p, hp, hpk⟩ := h
                exact Or.inl ⟨p, List.mem_append_left _ hp, hpk⟩
              · obtain ⟨r, hr, hrk, hpk⟩ := h
                rcases List.mem_cons.mp hr with he | hr'
                · subst he
                  refine Or.inl ⟨(rawGet r "node_type".data [], d), ?_, hrk⟩
                  exact List.mem_append_right _ (List.mem_singleton.mpr rfl)
                · exact Or.inr ⟨r, hr', hrk, hpk⟩
          · intro k hk
            have hk' : ∃ p ∈ acc ++ [(rawGet raw "node_type".data [], d)], p.1 = k := by
              obtain ⟨p, hp, hpk⟩ := hk
              exact ⟨p, List.mem_append_left _ hp, hpk⟩
            rw [hacc k hk']
            rw [List.find?_append]
            have hsome' : (acc.find? (fun p => p.1 = k)).isSome = true := by
              rw [List.find?_isSome]
              obtain ⟨p, hp, hpk⟩ := hk
              exact ⟨p, hp, by simpa using hpk⟩
            obtain ⟨q, hq⟩ := Option.isSome_iff_exists.mp hsome'
            rw [hq]
            rfl
          · intro k raw' hpk hnacc hfind
            by_cases hkeq : rawGet raw "node_type".data [] = k
            · -- the new head row is the first occurrence of k
              have hraw' : raw' = raw := by
                rw [List.find?_cons_of_pos _ (by simpa using hkeq)] at hfind
                exact (Option.some_inj.mp hfind).symm
              subst hraw'
              subst hkeq
              refine ⟨d, hd, ?_⟩
              have hinacc' : ∃ p ∈ acc ++ [(rawGet raw' "node_type".data [], d)],
                  p.1 = rawGet raw' "node_type".data [] := by
                exact ⟨(rawGet raw' "node_type".data [], d),
                  List.mem_append_right _ (List.mem_singleton.mpr rfl), rfl⟩
              rw [hacc _ hinacc']
              rw [List.find?_append]
              have hnone : acc.find? (fun p => p.1 = rawGet raw' "node_type".data []) = none := by
                rw [List.find?_eq_none]
                intro p hp
                simp only [decide_eq_true_eq]
                exact fun he => hnacc ⟨p, hp, he⟩
              rw [hnone, List.find?_cons_of_pos _ (by simp)]
              rfl
            · have hnacc' : ¬ ∃ p ∈ acc ++ [(rawGet raw "node_type".data [], d)], p.1 = k := by
                rintro ⟨p, hp, hpk⟩
                rcases List.mem_append.mp hp with hp' | hp'
                · exact hnacc ⟨p, hp', hpk⟩
                · rw [List.mem_singleton.mp hp'] at hpk
                  exact hkeq hpk
              rw [List.find?_cons_of_neg _ (by simpa using hkeq)] at hfind
              exact hfirst k raw' hpk hnacc' hfind

/-- Claim C10 as stated is false in its "if" direction: a node type that
*begins with* `cache.` but has an empty family segment — the key `cache.`
itself — makes `extract_elasticache_family` index into an empty string, so
the builder raises `IndexError` and produces no record at all. -/
theorem C10_counterexample :
    "cache.".data.isPrefixOf "cache.".data = true ∧
    process_elasticache_data [[("node_type".data, "cache.".data)]] = none :=
  ⟨by decide, by decide⟩

/-- Amended C10: when every cache-prefixed node type in the input has a
non-empty family segment (so the builder never raises), a record exists for
node type `k` iff some input row carries `k` and `k` begins with `cache.`;
and the record stored for `k` is built from the *first* row carrying `k` —
later duplicates are ignored. -/
theorem C10_elasticache_builder (raws : List ECacheRow)
    (H : ∀ raw ∈ raws, "cache.".data.isPrefixOf (rawGet raw "node_type".data []) = true →
        (buildElastiCacheNode (rawGet raw "node_type".data []) raw).isSome = true) :
    ∃ out, process_elasticache_data raws = some out ∧
      (∀ k, (∃ p ∈ out, p.1 = k) ↔
        ∃ raw ∈ raws, rawGet raw "node_type".data [] = k ∧
          "cache.".data.isPrefixOf k = true) ∧
      (∀ k raw', "cache.".data.isPrefixOf k = true →
        (raws.find? (fun raw => rawGet raw "node_type".data [] = k)) = some raw' →
        ∃ d, buildElastiCacheNode k raw' = some d ∧
          out.find? (fun p => p.1 = k) = some (k, d)) := by
  obtain ⟨out, hgo, hmem, -, hfirst⟩ := processElastiCacheGo_spec raws [] H
  have hempty : ∀ k, ¬ ∃ p ∈ ([] : List (List Char × ElastiCacheNodeDetails)), p.1 = k := by
    rintro k ⟨p, hp, -⟩
    exact absurd hp (List.not_mem_nil p)
  refine ⟨out, hgo, ?_, ?_⟩
  · intro k
    rw [hmem k]
    constructor
    · rintro (h | h)
      · exact absurd h (hempty k)
      · exact h
    · exact Or.inr
  · intro k raw' hpk hfind
    exact hfirst k raw' hpk (hempty k) hfind

/-- Witness for `C10_elasticache_builder` on a concrete row list containing a
duplicate node type and a non-cache row. -/
theorem C10_elasticache_builder_witness :
    (∀ raw ∈ ([[("node_type".data, "cache.m5.large".data), ("vcpus".data, "2".data)],
               [("node_type".data, "cache.m5.large".data), ("vcpus".data, "4".data)],
               [("node_type".data, "db.r5.large".data)]] : List ECacheRow),
      "cache.".data.isPrefixOf (rawGet raw "node_type".data []) = true →
        (buildElastiCacheNode (rawGet raw "node_type".data []) raw).isSome = true) ∧
    ∃ out, process_elasticache_data
        [[("node_type".data, "cache.m5.large".data), ("vcpus".data, "2".data)],
         [("node_type".data, "cache.m5.large".data), ("vcpus".data, "4".data)],
         [("node_type".data, "db.r5.large".data)]] = some out ∧
      (∀ k, (∃ p ∈ out, p.1 = k) ↔
        ∃ raw ∈ ([[("node_type".data, "cache.m5.large".data), ("vcpus".data, "2".data)],
                  [("node_type".data, "cache.m5.large".data), ("vcpus".data, "4".data)],
                  [("node_type".data, "db.r5.large".data)]] : List ECacheRow),
          rawGet raw "node_type".data [] = k ∧ "cache.".data.isPrefixOf k = true) ∧
      (∀ k raw', "cache.".data.isPrefixOf k = true →
        (([[("node_type".data, "cache.m5.large".data), ("vcpus".data, "2".data)],
           [("node_type".data, "cache.m5.large".data), ("vcpus".data, "4".data)],
           [("node_type".data, "db.r5.large".data)]] : List ECacheRow).find?
            (fun raw => rawGet raw "node_type".data [] = k)) = some raw' →
        ∃ d, buildElastiCacheNode k raw' = some d ∧
          out.find? (fun p => p.1 = k) = some (k, d)) := by
  refine ⟨by decide, C10_elasticache_builder _ (by decide)⟩

/-! # C3 — schema emitter determinism -/

theorem extract_unique_values_perm {l₁ l₂ : List (List Char × InstanceDetails)}
    (extractor : InstanceDetails → Except Unit ExtractedVal) (h : l₁.Perm l₂) :
    (extract_unique_values l₁ extractor).Perm (extract_unique_values l₂ extractor) :=
  h.flatMap_right _

theorem dictKeys_perm {α : Type} {l₁ l₂ : List (List Char × α)} (h : l₁.Perm l₂) :
    (dictKeys l₁).Perm (dictKeys l₂) :=
  h.map _

theorem generate_union_type_perm (name : List Char) {v₁ v₂ : List (List Char)}
    (h : v₁.Perm v₂) :
    generate_union_type name v₁ = generate_union_type name v₂ := by
  rw [generate_union_type, generate_union_type]
  by_cases he : v₁.isEmpty = true
  · have he₁ : v₁ = [] := List.isEmpty_iff.mp he
    have he₂ : v₂ = [] := (he₁ ▸ h).symm.eq_nil
    rw [he₁, he₂]
  · have he₂ : ¬ v₂.isEmpty = true := by
      intro h2
      rw [List.isEmpty_iff.mp h2] at h
      exact he (List.isEmpty_iff.mpr h.eq_nil)
    rw [if_neg he, if_neg he₂, pySortedSet_perm h]

/-- Claim C3: the schema emitter is deterministic — two runs over equal input
datasets (the same key-to-record maps, presented in any iteration order)
produce byte-identical type-definition documents, with every union-type
enumeration listed in lexicographic order (the order of `pySortedSet`, which
is sorted and independent of set-iteration order). -/
theorem C3_schema_emitter_determinism
    (e₁ e₂ : List (List Char × InstanceDetails)) (f₁ f₂ : List (List Char × FamilyData))
    (r₁ r₂ : List (List Char × RDSInstanceDetails)) (g₁ g₂ : List (List Char × RDSFamilyData))
    (c₁ c₂ : List (List Char × ElastiCacheNodeDetails))
    (d₁ d₂ : List (List Char × ElastiCacheFamilyData))
    (he : e₁.Perm e₂) (hf : f₁.Perm f₂) (hr : r₁.Perm r₂) (hg : g₁.Perm g₂)
    (hc : c₁.Perm c₂) (hd : d₁.Perm d₂) :
    generate_typescript_types e₁ f₁ r₁ g₁ c₁ d₁ =
      generate_typescript_types e₂ f₂ r₂ g₂ c₂ d₂ ∧
    ∀ values : List (List Char), List.Sorted (· ≤ ·) (pySortedSet values) := by
  constructor
  · simp only [generate_typescript_types]
    rw [generate_union_type_perm _ (dictKeys_perm he),
        generate_union_type_perm _ (dictKeys_perm hf),
        generate_union_type_perm _ (extract_unique_values_perm familySummaryHypervisor he),
        generate_union_type_perm _ (extract_unique_values_perm familySummaryArchitecture he),
        generate_union_type_perm _ (extract_unique_values_perm performanceProcessor he),
        generate_union_type_perm _ (extract_unique_values_perm familySummaryOperatingSystems he),
        generate_union_type_perm _ (extract_unique_values_perm performanceAccelerators he),
        generate_union_type_perm _ (dictKeys_perm hr),
        generate_union_type_perm _ (dictKeys_perm hg),
        generate_union_type_perm _ (dictKeys_perm hc),
        generate_union_type_perm _ (dictKeys_perm hd)]
  · exact fun values => pySortedSet_sorted values

/-- Witness for `C3_schema_emitter_determinism` on two presentations of the
same two-record EC2 map. -/
theorem C3_determinism_witness :
    (([("a".data, sampleInstance), ("b".data, sampleInstance2)] :
        List (List Char × InstanceDetails)).Perm
      [("b".data, sampleInstance2), ("a".data, sampleInstance)]) ∧
    generate_typescript_types
        [("a".data, sampleInstance), ("b".data, sampleInstance2)] [] [] [] [] [] =
      generate_typescript_types
        [("b".data, sampleInstance2), ("a".data, sampleInstance)] [] [] [] [] [] := by
  have hp : (([("a".data, sampleInstance), ("b".data, sampleInstance2)] :
      List (List Char × InstanceDetails)).Perm
        [("b".data, sampleInstance2), ("a".data, sampleInstance)]) :=
    List.Perm.swap _ _ _
  exact ⟨hp, (C3_schema_emitter_determinism _ _ _ _ _ _ _ _ _ _ _ _
    hp (List.Perm.refl _) (List.Perm.refl _) (List.Perm.refl _)
    (List.Perm.refl _) (List.Perm.refl _)).1⟩

end Generate
